import Mathlib

/-
Verification development for the agent execution core of the bluehawks-cli
repository.  The TypeScript sources are shallowly embedded: every pure or
effect-observable function of the core is translated into an executable Lean
definition; external effects (the HTTP completion service, subprocesses,
wall-clock time, the file system) are modelled as explicit inputs, and
JavaScript exceptions are modelled with Except.  JavaScript numbers that the
core only ever uses as non-negative integers are modelled as Nat; embedding
vector components are modelled as real numbers.

Modelling notes, applying throughout:
  - JSON.parse / JSON.stringify are embedded by a Json value type together
    with a parser and a printer written against the JSON grammar.  Persisted
    files are modelled at the Json value level.
  - JavaScript string .length / .substring count UTF-16 units; the model
    counts characters.  The two agree on all inputs used here.
  - Wall-clock measurements (apiTime, toolTime, Date.now identifiers) are
    environmental; where a produced value depends on the clock the clock
    reading is an explicit parameter, and elapsed-time accumulators that no
    verified property mentions are omitted from the state records.
  - UI observer callbacks (onChunk, onToolStart, onToolEnd) only observe and
    are omitted.
-/

namespace Bluehawks

/-! ## JSON values (model of the JavaScript JSON data the core passes around) -/

inductive Json where
  | null : Json
  | bool (b : Bool) : Json
  | num (q : Rat) : Json
  | str (s : String) : Json
  | arr (xs : List Json) : Json
  | obj (fields : List (String × Json)) : Json
deriving Repr, Inhabited

/-- Property read `v.f` on a JavaScript value: objects yield the first field
with the name (JSON.parse keeps the last duplicate; the parser below already
keeps only one entry per key), everything else yields undefined (none). -/
def Json.getField : Json → String → Option Json
  | Json.obj fields, k => fields.lookup k
  | _, _ => none

/-- JavaScript truthiness of a defined value. -/
def Json.truthy : Json → Bool
  | Json.null => false
  | Json.bool b => b
  | Json.num q => q ≠ 0
  | Json.str s => s ≠ ""
  | Json.arr _ => true
  | Json.obj _ => true

/-- Truthiness of a possibly-undefined value, as used by `a || b` chains. -/
def jsTruthy : Option Json → Option Json
  | none => none
  | some v => if v.truthy then some v else none

/-! ## Character-list string utilities (JS string operations used by the core) -/

/-- The whitespace set of JavaScript `trim` and of the regex class `\s`,
restricted to the ASCII characters that can occur in the data at hand. -/
def jsIsWs (c : Char) : Bool :=
  c = ' ' || c = '\t' || c = '\n' || c = '\x0d' || c = '\x0b' || c = '\x0c'

def trimChars (cs : List Char) : List Char :=
  ((cs.dropWhile jsIsWs).reverse.dropWhile jsIsWs).reverse

def jsTrim (s : String) : String :=
  String.mk (trimChars s.toList)

/-- Does `pat` occur as a contiguous run in `cs`?  (JS `String.includes`.) -/
def containsSub (cs pat : List Char) : Bool :=
  match cs with
  | [] => pat.isPrefixOf ([] : List Char)
  | _ :: rest => pat.isPrefixOf cs || containsSub rest pat

def strIncludes (s pat : String) : Bool :=
  containsSub s.toList pat.toList

/-- Index of the first occurrence of `pat` in `cs`, if any. -/
def findSub (cs pat : List Char) : Option Nat :=
  match cs with
  | [] => if pat.isEmpty then some 0 else none
  | _ :: rest =>
    if pat.isPrefixOf cs then some 0
    else (findSub rest pat).map (· + 1)

/-- All start indices of occurrences of `pat` in `cs`, ascending (used to
model lazy regex quantifiers, which try earlier occurrences first). -/
def occIndices (cs pat : List Char) : List Nat :=
  match cs with
  | [] => if pat.isEmpty then [0] else []
  | _ :: rest =>
    let tail := (occIndices rest pat).map (· + 1)
    if pat.isPrefixOf cs then 0 :: tail else tail

/-! ## JSON.parse (RFC 8259 grammar, as implemented by JavaScript engines) -/

def lbraceChar : Char := Char.ofNat 123
def rbraceChar : Char := Char.ofNat 125

/-- JSON insignificant whitespace (space, tab, line feed, carriage return). -/
def jsonIsWs (c : Char) : Bool :=
  c = ' ' || c = '\t' || c = '\n' || c = '\x0d'

def jsonSkipWs (cs : List Char) : List Char :=
  cs.dropWhile jsonIsWs

def isDigitChar (c : Char) : Bool :=
  '0' ≤ c && c ≤ '9'

def digitVal (c : Char) : Nat :=
  c.toNat - '0'.toNat

def digitsToNat (ds : List Char) : Nat :=
  ds.foldl (fun acc c => acc * 10 + digitVal c) 0

def hexVal (c : Char) : Option Nat :=
  let n := c.toNat
  if 48 ≤ n && n ≤ 57 then some (n - 48)
  else if 97 ≤ n && n ≤ 102 then some (n - 87)
  else if 65 ≤ n && n ≤ 70 then some (n - 55)
  else none

/-- Parse the body of a JSON string after the opening quote; returns the
decoded characters and the input after the closing quote. -/
def parseStringBody (fuel : Nat) (cs : List Char) : Option (List Char × List Char) :=
  match fuel with
  | 0 => none
  | fuel + 1 =>
    match cs with
    | [] => none
    | '"' :: rest => some ([], rest)
    | '\\' :: e :: rest =>
      let cont (decoded : Char) (rem : List Char) : Option (List Char × List Char) :=
        (parseStringBody fuel rem).map (fun (tail, rem2) => (decoded :: tail, rem2))
      match e with
      | '"' => cont '"' rest
      | '\\' => cont '\\' rest
      | '/' => cont '/' rest
      | 'b' => cont '\x08' rest
      | 'f' => cont '\x0c' rest
      | 'n' => cont '\n' rest
      | 'r' => cont '\x0d' rest
      | 't' => cont '\t' rest
      | 'u' =>
        match rest with
        | h1 :: h2 :: h3 :: h4 :: rest2 =>
          match hexVal h1, hexVal h2, hexVal h3, hexVal h4 with
          | some a, some b, some c, some d =>
            let n := ((a * 16 + b) * 16 + c) * 16 + d
            cont (Char.ofNat n) rest2
          | _, _, _, _ => none
        | _ => none
      | _ => none
    | c :: rest =>
      if c.toNat < 32 then none
      else (parseStringBody fuel rest).map (fun (tail, rem2) => (c :: tail, rem2))

/-- Parse a JSON number starting at `cs` (first char is a minus or digit). -/
def parseNumber (cs : List Char) : Option (Rat × List Char) :=
  let (neg, cs1) := match cs with
    | '-' :: rest => (true, rest)
    | _ => (false, cs)
  let intDigits : Option (List Char × List Char) :=
    match cs1 with
    | '0' :: rest => some (['0'], rest)
    | c :: rest =>
      if isDigitChar c && c ≠ '0' then
        some (c :: rest.takeWhile isDigitChar, rest.dropWhile isDigitChar)
      else none
    | [] => none
  match intDigits with
  | none => none
  | some (ip, cs2) =>
    let (fp, cs3) := match cs2 with
      | '.' :: rest =>
        if (rest.takeWhile isDigitChar).isEmpty then ([], cs2)
        else (rest.takeWhile isDigitChar, rest.dropWhile isDigitChar)
      | _ => ([], cs2)
    let fracOk : Bool := match cs2 with
      | '.' :: rest => !(rest.takeWhile isDigitChar).isEmpty
      | _ => true
    if !fracOk then none else
    let expPart : Option (Option (Bool × List Char) × List Char) :=
      match cs3 with
      | c :: rest =>
        if c = 'e' || c = 'E' then
          let (eneg, rest2) := match rest with
            | '-' :: r => (true, r)
            | '+' :: r => (false, r)
            | _ => (false, rest)
          let eds := rest2.takeWhile isDigitChar
          if eds.isEmpty then none
          else some (some (eneg, eds), rest2.dropWhile isDigitChar)
        else some (none, cs3)
      | [] => some (none, cs3)
    match expPart with
    | none => none
    | some (expInfo, cs4) =>
      let mantissa : Int := (digitsToNat (ip ++ fp) : Int)
      let mantissa := if neg then -mantissa else mantissa
      let fracLen := fp.length
      let q : Rat := (mantissa : Rat) / ((10 : Rat) ^ fracLen)
      let q : Rat := match expInfo with
        | none => q
        | some (eneg, eds) =>
          let e := digitsToNat eds
          if eneg then q / ((10 : Rat) ^ e) else q * ((10 : Rat) ^ e)
      some (q, cs4)

/-- Insert a parsed object member: a duplicate key keeps the first position
and takes the later value, as JavaScript property definition does. -/
def objUpsert (fields : List (String × Json)) (k : String) (v : Json) :
    List (String × Json) :=
  match fields with
  | [] => [(k, v)]
  | (k0, v0) :: rest =>
    if k0 = k then (k0, v) :: rest else (k0, v0) :: objUpsert rest k v

mutual

def parseVal (fuel : Nat) (cs : List Char) : Option (Json × List Char) :=
  match fuel with
  | 0 => none
  | fuel + 1 =>
    match cs with
    | 'n' :: 'u' :: 'l' :: 'l' :: rest => some (Json.null, rest)
    | 't' :: 'r' :: 'u' :: 'e' :: rest => some (Json.bool true, rest)
    | 'f' :: 'a' :: 'l' :: 's' :: 'e' :: rest => some (Json.bool false, rest)
    | '"' :: rest =>
      (parseStringBody rest.length.succ rest).map
        (fun (body, rem) => (Json.str (String.mk body), rem))
    | '[' :: rest =>
      let rest1 := jsonSkipWs rest
      match rest1 with
      | ']' :: rem => some (Json.arr [], rem)
      | _ =>
        (parseElems fuel rest1).map (fun (xs, rem) => (Json.arr xs, rem))
    | c :: rest =>
      if c = lbraceChar then
        let rest1 := jsonSkipWs rest
        match rest1 with
        | d :: rem =>
          if d = rbraceChar then some (Json.obj [], rem)
          else (parseMembers fuel rest1).map (fun (fs, rem2) => (Json.obj fs, rem2))
        | [] => none
      else if c = '-' || isDigitChar c then
        (parseNumber cs).map (fun (q, rem) => (Json.num q, rem))
      else none
    | [] => none

def parseElems (fuel : Nat) (cs : List Char) : Option (List Json × List Char) :=
  match fuel with
  | 0 => none
  | fuel + 1 =>
    match parseVal fuel cs with
    | none => none
    | some (v, rem) =>
      match jsonSkipWs rem with
      | ',' :: rem2 =>
        (parseElems fuel (jsonSkipWs rem2)).map (fun (xs, rem3) => (v :: xs, rem3))
      | ']' :: rem2 => some ([v], rem2)
      | _ => none

def parseMembers (fuel : Nat) (cs : List Char) :
    Option (List (String × Json) × List Char) :=
  match fuel with
  | 0 => none
  | fuel + 1 =>
    match cs with
    | '"' :: rest =>
      match parseStringBody rest.length.succ rest with
      | none => none
      | some (key, rem) =>
        match jsonSkipWs rem with
        | ':' :: rem2 =>
          match parseVal fuel (jsonSkipWs rem2) with
          | none => none
          | some (v, rem3) =>
            match jsonSkipWs rem3 with
            | ',' :: rem4 =>
              (parseMembers fuel (jsonSkipWs rem4)).map
                (fun (fs, rem5) => (objUpsert fs (String.mk key) v, rem5))
            | d :: rem4 =>
              if d = rbraceChar then some ([(String.mk key, v)], rem4) else none
            | [] => none
        | _ => none
    | _ => none

end

/-- Model of `JSON.parse`: none models a thrown SyntaxError. -/
def parseJson (s : String) : Option Json :=
  let cs := jsonSkipWs s.toList
  match parseVal (2 * s.length + 8) cs with
  | none => none
  | some (v, rest) => if (jsonSkipWs rest).isEmpty then some v else none

/-! ## JSON.stringify -/

def toHexDigit (n : Nat) : Char :=
  if n < 10 then Char.ofNat ('0'.toNat + n) else Char.ofNat ('a'.toNat + n - 10)

def escapeJsonChar (c : Char) : List Char :=
  if c = '"' then ['\\', '"']
  else if c = '\\' then ['\\', '\\']
  else if c = '\n' then ['\\', 'n']
  else if c = '\x0d' then ['\\', 'r']
  else if c = '\t' then ['\\', 't']
  else if c = '\x08' then ['\\', 'b']
  else if c = '\x0c' then ['\\', 'f']
  else if c.toNat < 32 then
    ['\\', 'u', '0', '0', toHexDigit (c.toNat / 16), toHexDigit (c.toNat % 16)]
  else [c]

def escapeJson (s : String) : String :=
  String.mk (s.toList.flatMap escapeJsonChar)

def renderQuoted (s : String) : String :=
  "\"" ++ escapeJson s ++ "\""

/-- Least `k ≤ 30` with `d ∣ 10 ^ k`, if one exists (decimal printability). -/
def decExponent (d : Nat) : Option Nat :=
  (List.range 31).find? (fun k => 10 ^ k % d = 0)

/-- Decimal rendering of the rational number values occurring in the data.
Integers print like JavaScript integers; terminating decimal fractions print
with a decimal point.  (The JavaScript engine prints the shortest float
representation; every number a verified property mentions is an integer, on
which the two renderings agree.) -/
def renderNum (q : Rat) : String :=
  if q.den = 1 then toString q.num
  else
    match decExponent q.den with
    | some k =>
      let n := q.num.natAbs * (10 ^ k / q.den)
      let digits := toString n
      let digits :=
        if digits.length ≤ k then
          String.mk (List.replicate (k + 1 - digits.length) '0') ++ digits
        else digits
      let intPart := String.mk (digits.toList.take (digits.length - k))
      let fracPart := String.mk (digits.toList.drop (digits.length - k))
      (if q.num < 0 then "-" else "") ++ intPart ++ "." ++ fracPart
    | none => toString (q.num / (q.den : Int))

mutual

def Json.render : Json → String
  | Json.null => "null"
  | Json.bool true => "true"
  | Json.bool false => "false"
  | Json.num q => renderNum q
  | Json.str s => renderQuoted s
  | Json.arr xs => "[" ++ renderList xs ++ "]"
  | Json.obj fs =>
    String.singleton lbraceChar ++ renderFields fs ++ String.singleton rbraceChar

def renderList : List Json → String
  | [] => ""
  | [x] => Json.render x
  | x :: y :: rest => Json.render x ++ "," ++ renderList (y :: rest)

def renderFields : List (String × Json) → String
  | [] => ""
  | [(k, v)] => renderQuoted k ++ ":" ++ Json.render v
  | (k, v) :: f :: rest =>
    renderQuoted k ++ ":" ++ Json.render v ++ "," ++ renderFields (f :: rest)

end

/-! ## API data model (src/core/api/types.ts) -/

inductive Role where
  | system | user | assistant | tool
deriving Repr, DecidableEq

structure ImageUrl where
  url : String
  detail : Option String := none
deriving Repr, DecidableEq

structure ContentPart where
  type : String
  text : Option String := none
  image_url : Option ImageUrl := none
deriving Repr, DecidableEq

inductive MessageContent where
  | str (s : String)
  | parts (ps : List ContentPart)
deriving Repr, DecidableEq

/-- `function` field of a ToolCall; the constant discriminator
`type: "function"` carries no information and is not represented. -/
structure ToolCallFunction where
  name : String
  arguments : String
deriving Repr, DecidableEq

structure ToolCall where
  id : String
  function : ToolCallFunction
deriving Repr, DecidableEq

structure Message where
  role : Role
  content : MessageContent
  name : Option String := none
  tool_calls : Option (List ToolCall) := none
  tool_call_id : Option String := none
deriving Repr, DecidableEq

structure ToolResult where
  tool_call_id : String
  content : String
  isError : Option Bool := none
deriving Repr, DecidableEq

structure PromptTokensDetails where
  cached_tokens : Nat := 0
  audio_tokens : Nat := 0
deriving Repr, DecidableEq

structure CompletionTokensDetails where
  reasoning_tokens : Nat := 0
  audio_tokens : Nat := 0
deriving Repr, DecidableEq

structure Usage where
  prompt_tokens : Nat := 0
  completion_tokens : Nat := 0
  total_tokens : Nat := 0
  prompt_tokens_details : Option PromptTokensDetails := none
  completion_tokens_details : Option CompletionTokensDetails := none
deriving Repr, DecidableEq

/-- `typeof content === "string" ? content : ""` -/
def contentAsString : MessageContent → String
  | MessageContent.str s => s
  | MessageContent.parts _ => ""

/-! ## Regex region scanning

`/<open>[\s\S]*?<close>/g` finds leftmost, non-overlapping, shortest-inner
regions.  `scanRegions` returns the inner texts of the matched regions (the
exec loop of `parseQwen3ToolCalls`) together with the input with every
matched region deleted (the `.replace(..., "")` in `createChatCompletion`
and the `<think>` strip in the agent loop). -/

def scanRegions (openT closeT : List Char) :
    Nat → List Char → List (List Char) × List Char
  | 0, cs => ([], cs)
  | fuel + 1, cs =>
    match findSub cs openT with
    | none => ([], cs)
    | some i =>
      let pre := cs.take i
      let afterOpen := cs.drop (i + openT.length)
      match findSub afterOpen closeT with
      | none => ([], cs)
      | some j =>
        let inner := afterOpen.take j
        let rest := afterOpen.drop (j + closeT.length)
        let (rs, stripped) := scanRegions openT closeT fuel rest
        (inner :: rs, pre ++ stripped)

def toolCallOpen : List Char := "<tool_call>".toList
def toolCallClose : List Char := "</tool_call>".toList

def toolCallRegions (cs : List Char) : List (List Char) :=
  (scanRegions toolCallOpen toolCallClose (cs.length + 1) cs).1

def stripToolCallRegions (content : String) : String :=
  String.mk (scanRegions toolCallOpen toolCallClose
    (content.toList.length + 1) content.toList).2

/-! ## APIClient.parseQwen3ToolCalls and tool-call extraction
(src/core/api/client.ts) -/

/-- The tool name as stored by `name: parsed.name || parsed.function`.
The JavaScript code stores the raw value; every value reaching this point in
practice is a string, and a non-string truthy value is rendered. -/
def jsonAsName : Json → String
  | Json.str s => s
  | v => v.render

/-- `typeof args === "string" ? args : JSON.stringify(args)` -/
def jsonArgsString : Json → String
  | Json.str s => s
  | v => v.render

/-- One push of the extraction loops: accept both name/function and
arguments/parameters spellings; skip when the name is falsy.  `now` models
`Date.now()` and `idx` the running `callIndex`. -/
def mkToolCallOfJson (now idx : Nat) (parsed : Json) : Option ToolCall :=
  match (jsTruthy (parsed.getField "name")).orElse
      (fun _ => jsTruthy (parsed.getField "function")) with
  | none => none
  | some nv =>
    let argsV := (((jsTruthy (parsed.getField "arguments")).orElse
      (fun _ => jsTruthy (parsed.getField "parameters")))).getD (Json.obj [])
    some { id := "call_" ++ toString now ++ "_" ++ toString idx,
           function := { name := jsonAsName nv, arguments := jsonArgsString argsV } }

/-- Pattern 1: the `<tool_call>` regions whose trimmed inner text parses as
JSON and carries a truthy name. -/
def pattern1Calls (now : Nat) (inners : List (List Char)) : List ToolCall :=
  (inners.foldl (fun (st : Nat × List ToolCall) inner =>
    match parseJson (String.mk (trimChars inner)) with
    | none => st
    | some parsed =>
      match mkToolCallOfJson now st.1 parsed with
      | none => st
      | some tc => (st.1 + 1, st.2 ++ [tc])) (0, [])).2

def namePat : List Char := ['"', 'n', 'a', 'm', 'e', '"']

/-- After the literal closing brace candidate, the regex continues `\s*\]`:
greedy whitespace then a bracket, with no backtracking possible. -/
def wsThenRBracket (cs : List Char) : Option Nat :=
  let k := (cs.takeWhile jsIsWs).length
  match cs.drop k with
  | ']' :: _ => some (k + 1)
  | _ => none

/-- Lazy tail of `\[\s*\{[\s\S]*?"name"[\s\S]*?\}\s*\]` after the opening
brace: earlier `"name"` occurrences are tried first, then earlier closing
braces; returns the consumed length on the first success. -/
def matchTailAfterBrace (cs : List Char) : Option Nat :=
  (occIndices cs namePat).findSome? fun a =>
    let afterName := cs.drop (a + 6)
    (occIndices afterName [rbraceChar]).findSome? fun b =>
      let afterB := afterName.drop (b + 1)
      (wsThenRBracket afterB).map (fun w => a + 6 + b + 1 + w)

/-- Match of the array pattern anchored at the start of `cs`. -/
def matchArrayAt (cs : List Char) : Option Nat :=
  match cs with
  | '[' :: rest =>
    let w := (rest.takeWhile jsIsWs).length
    match rest.drop w with
    | c :: rest2 =>
      if c = lbraceChar then
        (matchTailAfterBrace rest2).map (fun t => 1 + w + 1 + t)
      else none
    | [] => none
  | _ => none

/-- First (leftmost) match of the array pattern, as `content.match(...)[0]`. -/
def firstArrayMatch (cs : List Char) : Option (List Char) :=
  match cs with
  | [] => none
  | _ :: rest =>
    match matchArrayAt cs with
    | some len => some (cs.take len)
    | none => firstArrayMatch rest

/-- The pattern-2 push loop.  The source wraps the whole loop in a single
try/catch and pushes into the outer `toolCalls` array, so `item.name` on a
null element throws TypeError and aborts the loop, keeping the calls pushed
before it; property access on any other JSON value yields the field or
undefined without throwing, and a falsy name skips the item. -/
def pattern2Loop (now : Nat) : Nat → List Json → List ToolCall
  | _, [] => []
  | _, Json.null :: _ => []
  | idx, item :: rest =>
    match mkToolCallOfJson now idx item with
    | none => pattern2Loop now idx rest
    | some tc => tc :: pattern2Loop now (idx + 1) rest

/-- Pattern 2: a direct JSON array of tool calls, tried only when pattern 1
produced nothing.  Parse failure, a non-array value and the mid-loop
TypeError all land in the same catch, which keeps whatever was pushed. -/
def pattern2Calls (now : Nat) (content : List Char) : List ToolCall :=
  match firstArrayMatch content with
  | none => []
  | some matched =>
    match parseJson (String.mk matched) with
    | some (Json.arr items) => pattern2Loop now 0 items
    | _ => []

def parseQwen3ToolCalls (now : Nat) (content : String) : List ToolCall :=
  let p1 := pattern1Calls now (toolCallRegions content.toList)
  if p1.isEmpty then pattern2Calls now content.toList else p1

/-- Post-processing of a non-streaming completion in
`APIClient.createChatCompletion`: when the provider returned no structured
tool calls, attempt textual extraction and strip the matched markup. -/
def extractToolCalls (now : Nat) (message : Message) : Message :=
  if (match message.tool_calls with
      | none => true
      | some tcs => tcs.isEmpty) then
    if strIncludes (contentAsString message.content) "<tool_call>"
        || strIncludes (contentAsString message.content) "\"name\"" then
      if !(parseQwen3ToolCalls now (contentAsString message.content)).isEmpty then
        { message with
            tool_calls :=
              some (parseQwen3ToolCalls now (contentAsString message.content)),
            content := MessageContent.str (jsTrim (stripToolCallRegions
              (contentAsString message.content))) }
      else message
    else message
  else message

/-! ## Tool registry (src/core/tools/registry.ts)

A handler is a side-effecting function; its observable behaviour is the
returned text or the thrown error, modelled with Except. -/

def MAX_OUTPUT_LENGTH : Nat := 50000

structure ToolHandlerM where
  name : String
  safeToAutoRun : Bool
  execute : Json → Except String String
  -- the schema (`definition`) carries no behaviour the verified
  -- properties mention and is not represented

/-- `Map.get` over the registration map; `register` keyed by handler name. -/
def registryGet (reg : List ToolHandlerM) (name : String) : Option ToolHandlerM :=
  reg.find? (fun h => h.name = name)

/-! ## Tool executor (ToolExecutor, src/core/tools/executor.ts) -/

inductive ApprovalMode where
  | always | never | unsafeOnly
deriving Repr, DecidableEq

structure ExecutorOptions where
  approvalMode : ApprovalMode
  /-- `onApprovalRequest`; a rejecting callback is an Except.error. -/
  onApprovalRequest : Option (String → Json → Except String Bool)

def needsApproval (opts : ExecutorOptions) (handler : ToolHandlerM) : Bool :=
  match opts.approvalMode with
  | ApprovalMode.never => false
  | ApprovalMode.always => true
  | ApprovalMode.unsafeOnly => !handler.safeToAutoRun

def requestApproval (opts : ExecutorOptions) (toolName : String) (args : Json) :
    Except String Bool :=
  match opts.onApprovalRequest with
  | none => Except.ok false   -- no approval handler: deny by default
  | some f => f toolName args

/-- Observable trace of one `executeToolCall` run, for the stated
approval-gating and dispatch properties. -/
structure ExecTrace where
  approvalRequested : Bool
  handlerInvoked : Bool
deriving Repr, DecidableEq

structure ExecOutcome where
  result : ToolResult
  trace : ExecTrace
deriving Repr, DecidableEq

def runHandlerStep (handler : ToolHandlerM) (id : String) (args : Json)
    (asked : Bool) : ExecOutcome :=
  match handler.execute args with
  | Except.ok r =>
    let r := if MAX_OUTPUT_LENGTH < r.length
      then String.mk (r.toList.take MAX_OUTPUT_LENGTH) ++ "\n... (output truncated)"
      else r
    { result := { tool_call_id := id, content := r, isError := some false }
      trace := { approvalRequested := asked, handlerInvoked := true } }
  | Except.error e =>
    { result := { tool_call_id := id, content := "Error: " ++ e, isError := some true }
      trace := { approvalRequested := asked, handlerInvoked := true } }

/-- `ToolExecutor.executeToolCall`.  The Except.error case is an exception
escaping the method itself (only a rejecting approval callback can cause
one); a throwing tool handler is caught inside and yields an
error-flagged ToolResult. -/
def executeToolCall (reg : List ToolHandlerM) (opts : ExecutorOptions)
    (tc : ToolCall) : Except String ExecOutcome :=
  match parseJson tc.function.arguments with
  | none =>
    Except.ok
      { result :=
          { tool_call_id := tc.id
            content := "Error: Failed to parse tool arguments: " ++ tc.function.arguments
            isError := some true }
        trace := { approvalRequested := false, handlerInvoked := false } }
  | some args =>
    match registryGet reg tc.function.name with
    | none =>
      Except.ok
        { result :=
            { tool_call_id := tc.id
              content := "Error: Unknown tool: " ++ tc.function.name
              isError := some true }
          trace := { approvalRequested := false, handlerInvoked := false } }
    | some handler =>
      if needsApproval opts handler then
        match requestApproval opts tc.function.name args with
        | Except.error e => Except.error e
        | Except.ok false =>
          Except.ok
            { result :=
                { tool_call_id := tc.id
                  content := "Tool execution was denied by the user."
                  isError := some true }
              trace := { approvalRequested := true, handlerInvoked := false } }
        | Except.ok true =>
          Except.ok (runHandlerStep handler tc.id args true)
      else
        Except.ok (runHandlerStep handler tc.id args false)

/-! ## Hooks pipeline (HooksManager, src/core/hooks/manager.ts) -/

inductive HookEvent where
  | SessionStart | UserPromptSubmit | PreToolUse | PostToolUse
  | PostToolUseFailure | Stop | SessionEnd
deriving Repr, DecidableEq

/-- The hook input union.  Only the fields the pipeline itself inspects are
given their own slots; `toolName` is optional because only the tool events
carry it (the `"toolName" in input` check). -/
structure HookInputM where
  sessionId : String := ""
  projectPath : String := ""
  model : String := ""
  timestamp : String := ""
  toolName : Option String := none
  toolInput : Option Json := none
  toolOutput : Option String := none
  error : Option String := none
  duration : Option Nat := none

structure HookOutput where
  block : Bool := false
  blockReason : Option String := none
  modifiedInput : Option Json := none
  addContent : Option String := none
deriving Repr

/-- One registered handler.  `matcher` models a set regex through its
`test` function (none also covers the falsy empty-string matcher); `run`
is the observable behaviour of `executeHandler`: an inline function or the
spawned shell command.  `Except.error` models an inline throw, the timeout
rejection, or a spawn error — all caught and logged by the pipeline;
`Except.ok none` is a handler returning no output (or unparsable stdout).
A non-zero shell exit arrives as `Except.ok (some output)` with
`block := true`, exactly as `executeCommand` resolves it. -/
structure HookHandlerM where
  id : String
  name : String
  event : HookEvent
  matcher : Option (String → Bool) := none
  run : HookInputM → Except String (Option HookOutput)

/-- Is this handler skipped by the matcher check? -/
def hookSkipped (h : HookHandlerM) (input : HookInputM) : Bool :=
  match h.matcher, input.toolName with
  | some m, some tn => !(m tn)
  | _, _ => false

/-- `HooksManager.execute`, instrumented with the list of handlers that
were actually invoked, in invocation order. -/
def hooksExecute (handlers : List HookHandlerM) (input : HookInputM) :
    List HookOutput × List HookHandlerM :=
  match handlers with
  | [] => ([], [])
  | h :: rest =>
    if hookSkipped h input then hooksExecute rest input
    else
      match h.run input with
      | Except.error _ =>
        -- caught: logged to the console, pipeline continues
        ((hooksExecute rest input).1, h :: (hooksExecute rest input).2)
      | Except.ok none =>
        ((hooksExecute rest input).1, h :: (hooksExecute rest input).2)
      | Except.ok (some result) =>
        if result.block then ([result], [h])
        else ((result :: (hooksExecute rest input).1),
          h :: (hooksExecute rest input).2)

/-! ## Agent loop (Agent.run, src/core/agents/agent.ts)

The completion service is an explicit input: `api i` is the outcome of the
i-th `createChatCompletion` round trip (its message already carries the
textual tool-call extraction of the client).  Hook handlers are supplied
per event as the hooks manager holds them.  `Except.error` of the run is an
exception crossing `run` (crashing the current agent turn). -/

structure ApiReply where
  message : Message
  usage : Option Usage := none

structure AgentCfg where
  systemPrompt : String
  maxIterations : Nat
  reg : List ToolHandlerM
  execOpts : ExecutorOptions
  hooks : HookEvent → List HookHandlerM
  api : Nat → Except String ApiReply
  sessionId : String := ""
  projectPath : String := ""
  model : String := ""
  /-- `new Date().toISOString()` reading for the hook context. -/
  timestamp : String := ""
  /-- `Date.now() - startTime` reading passed to PostToolUse. -/
  toolDurationMs : Nat := 0

/-- `options.maxIterations || 10` in the Agent constructor. -/
def agentMaxIterations (o : Option Nat) : Nat :=
  match o with
  | none => 10
  | some 0 => 10
  | some n => n

/-- Observable record of dispatching one tool call inside the loop:
its ToolResult, the hook pipelines executed for it (in order), whether a
PreToolUse hook blocked it, and whether it was counted successful. -/
structure CallRecord where
  result : ToolResult
  fired : List HookEvent
  blockedByHook : Bool
  succeeded : Bool
deriving Repr, DecidableEq

def blockReasonText (o : HookOutput) : String :=
  match o.blockReason with
  | some r => if r = "" then "No reason provided" else r
  | none => "No reason provided"

/-- The hook context plus tool fields built for each dispatched call. -/
def mkPreHookInput (cfg : AgentCfg) (tc : ToolCall) (toolInput : Json) : HookInputM :=
  { sessionId := cfg.sessionId, projectPath := cfg.projectPath,
    model := cfg.model, timestamp := cfg.timestamp,
    toolName := some tc.function.name, toolInput := some toolInput }

/-- The try/catch around `executeToolCall` in the per-tool-call loop: a
returning executor fires PostToolUse and counts the call successful; a
throwing executor (only a rejecting approval callback can throw there)
fires PostToolUseFailure, records the error text and counts it failed. -/
def dispatchRecord (cfg : AgentCfg) (tc : ToolCall) (hookInput : HookInputM) :
    CallRecord :=
  match executeToolCall cfg.reg cfg.execOpts tc with
  | Except.ok out =>
    let postInput := { hookInput with
      toolOutput := some out.result.content, duration := some cfg.toolDurationMs }
    let _ := hooksExecute (cfg.hooks HookEvent.PostToolUse) postInput
    { result := out.result
      fired := [HookEvent.PreToolUse, HookEvent.PostToolUse]
      blockedByHook := false
      succeeded := true }
  | Except.error e =>
    let failInput := { hookInput with error := some e }
    let _ := hooksExecute (cfg.hooks HookEvent.PostToolUseFailure) failInput
    { result := { tool_call_id := tc.id, content := "Error: " ++ e }
      fired := [HookEvent.PreToolUse, HookEvent.PostToolUseFailure]
      blockedByHook := false
      succeeded := false }

/-- The body of the per-tool-call loop in `Agent.run`.  The argument parse
happens outside the try block, so its failure is an uncaught exception; a
throwing `executeToolCall` (only a rejecting approval callback) lands in
the catch branch with the PostToolUseFailure pipeline. -/
def processToolCall (cfg : AgentCfg) (tc : ToolCall) : Except String CallRecord :=
  match parseJson (if tc.function.arguments = "" then "\x7b\x7d" else tc.function.arguments) with
  | none => Except.error ("SyntaxError: JSON.parse: " ++
      (if tc.function.arguments = "" then "\x7b\x7d" else tc.function.arguments))
  | some toolInput =>
    match (hooksExecute (cfg.hooks HookEvent.PreToolUse)
        (mkPreHookInput cfg tc toolInput)).1.find? (fun r => r.block) with
    | some blocked =>
      Except.ok
        { result := { tool_call_id := tc.id,
                      content := "Tool blocked by hook: " ++ blockReasonText blocked }
          fired := [HookEvent.PreToolUse]
          blockedByHook := true
          succeeded := false }
    | none => Except.ok (dispatchRecord cfg tc (mkPreHookInput cfg tc toolInput))

def processToolCalls (cfg : AgentCfg) : List ToolCall → Except String (List CallRecord)
  | [] => Except.ok []
  | tc :: rest =>
    match processToolCall cfg tc with
    | Except.error e => Except.error e
    | Except.ok r =>
      match processToolCalls cfg rest with
      | Except.error e => Except.error e
      | Except.ok rs => Except.ok (r :: rs)

def stripThink (s : String) : String :=
  String.mk (scanRegions "<think>".toList "</think>".toList
    (s.toList.length + 1) s.toList).2

structure AgentSt where
  messages : List Message
  iterations : Nat
  finalContent : String
  toolsUsed : List String
  successfulToolCalls : Nat
  failedToolCalls : Nat
  usage : Usage

def addUsage (t : Usage) (u : Usage) : Usage :=
  let t := { t with
    prompt_tokens := t.prompt_tokens + u.prompt_tokens
    completion_tokens := t.completion_tokens + u.completion_tokens
    total_tokens := t.total_tokens + u.total_tokens }
  let t := match u.prompt_tokens_details with
    | none => t
    | some d =>
      let td := t.prompt_tokens_details.getD {}
      { t with prompt_tokens_details := some { cached_tokens := td.cached_tokens + d.cached_tokens, audio_tokens := td.audio_tokens + d.audio_tokens } }
  match u.completion_tokens_details with
  | none => t
  | some d =>
    let td := t.completion_tokens_details.getD {}
    { t with completion_tokens_details := some { td with reasoning_tokens := td.reasoning_tokens + d.reasoning_tokens } }

def initUsage : Usage :=
  { prompt_tokens := 0, completion_tokens := 0, total_tokens := 0
    prompt_tokens_details := some {}
    completion_tokens_details := some {} }

/-- The assistant message appended each iteration: content as returned,
tool_calls only when non-empty. -/
def assistantMessageOf (message : Message) : Message :=
  { role := Role.assistant, content := message.content,
    tool_calls := match message.tool_calls with
      | some (_ :: _) => message.tool_calls
      | _ => none }

/-- `<think>`-stripped, trimmed turn content. -/
def turnContentOf (message : Message) : String :=
  jsTrim (stripThink (contentAsString message.content))

/-- Accumulate the final content across iterations. -/
def appendContent (finalContent turnContent : String) : String :=
  if turnContent ≠ "" then
    (if finalContent ≠ "" then finalContent ++ "\n\n" ++ turnContent
      else turnContent)
  else finalContent

/-- State update at the head of one loop iteration: count the iteration,
accumulate usage, append the assistant message, accumulate content. -/
def applyReply (st : AgentSt) (reply : ApiReply) : AgentSt :=
  { st with
    iterations := st.iterations + 1
    usage := (match reply.usage with
      | none => st.usage
      | some u => addUsage st.usage u)
    messages := st.messages ++ [assistantMessageOf reply.message]
    finalContent := appendContent st.finalContent (turnContentOf reply.message) }

/-- State update after the per-call loop: record tool names, bump the
counters, append one tool-role message per ToolResult, in order. -/
def afterToolCalls (st : AgentSt) (tcs : List ToolCall)
    (records : List CallRecord) : AgentSt :=
  { st with
    toolsUsed := st.toolsUsed ++ tcs.map (fun tc => tc.function.name)
    successfulToolCalls := st.successfulToolCalls +
      (records.filter (fun r => r.succeeded)).length
    failedToolCalls := st.failedToolCalls +
      (records.filter (fun r => !r.succeeded && !r.blockedByHook)).length
    messages := st.messages ++ records.map (fun r =>
      { role := Role.tool, content := MessageContent.str r.result.content,
        tool_call_id := some r.result.tool_call_id }) }

/-- One `while (iterations < maxIterations)` pass and the tail of the loop;
fuel is the number of remaining allowed iterations. -/
def agentIterate (cfg : AgentCfg) : Nat → AgentSt → Except String AgentSt
  | 0, st => Except.ok st
  | fuel + 1, st =>
    match cfg.api st.iterations with
    | Except.error e => Except.error e
    | Except.ok reply =>
      match reply.message.tool_calls with
      | none => Except.ok (applyReply st reply)
      | some [] => Except.ok (applyReply st reply)
      | some (tc :: tcs) =>
        match processToolCalls cfg (tc :: tcs) with
        | Except.error e => Except.error e
        | Except.ok records =>
          agentIterate cfg fuel
            (afterToolCalls (applyReply st reply) (tc :: tcs) records)

/-- The state `Agent.run` seeds: the system prompt, the replayed prior
history (roles preserved), and the current user message. -/
def initialAgentSt (cfg : AgentCfg) (userMessage : String)
    (history : List (Role × String)) : AgentSt :=
  { messages :=
      { role := Role.system, content := MessageContent.str cfg.systemPrompt } ::
        (history.map (fun rc =>
          { role := rc.1, content := MessageContent.str rc.2 }) ++
          [{ role := Role.user, content := MessageContent.str userMessage }])
    iterations := 0, finalContent := ""
    toolsUsed := [], successfulToolCalls := 0, failedToolCalls := 0
    usage := initUsage }

/-- `Agent.run`: seed the transcript, then iterate up to maxIterations. -/
def agentRun (cfg : AgentCfg) (userMessage : String)
    (history : List (Role × String)) : Except String AgentSt :=
  agentIterate cfg cfg.maxIterations (initialAgentSt cfg userMessage history)

/-! ## Memory store (MemoryManager, src/core/memory/manager.ts)

Embedding components are real numbers; the embedded query and the rerank
response are explicit inputs (they come from the remote service). -/

inductive MemoryType where
  | preference | mistake | knowledge | task_context
deriving Repr, DecidableEq

structure Memory where
  id : String
  content : String
  type : MemoryType
  metadata : Json := Json.obj []
  embedding : Option (List ℝ) := none
  created_at : Nat := 0
  updated_at : Nat := 0

structure SearchResult extends Memory where
  similarity : ℝ

noncomputable def cosineSimilarity (vecA vecB : List ℝ) : ℝ :=
  if vecA.length ≠ vecB.length then 0
  else
    let dotProduct := ((vecA.zip vecB).map (fun p => p.1 * p.2)).sum
    let normA := (vecA.map (fun x => x * x)).sum
    let normB := (vecB.map (fun x => x * x)).sum
    if normA = 0 ∨ normB = 0 then 0
    else dotProduct / (Real.sqrt normA * Real.sqrt normB)

/-- `m.embedding && m.embedding.length > 0` -/
def embNonEmptyB (m : Memory) : Bool :=
  match m.embedding with
  | some (_ :: _) => true
  | _ => false

noncomputable def simOf (queryEmbedding : List ℝ) (m : Memory) : SearchResult :=
  { m with similarity := cosineSimilarity queryEmbedding (m.embedding.getD []) }

/-- Stable descending insertion by `similarity`, the behaviour of
`.sort((a, b) => b.similarity - a.similarity)`. -/
noncomputable def insertDescBySim (x : SearchResult) :
    List SearchResult → List SearchResult
  | [] => [x]
  | y :: ys =>
    if y.similarity < x.similarity then x :: y :: ys else y :: insertDescBySim x ys

noncomputable def sortDescBySim (l : List SearchResult) : List SearchResult :=
  l.foldr insertDescBySim []

/-- Stage 1 of `MemoryManager.search`: the vector-search candidates. -/
noncomputable def searchCandidates (queryEmbedding : List ℝ)
    (allMemories : List Memory) (minSimilarity : ℝ) : List SearchResult :=
  (sortDescBySim (((allMemories.filter embNonEmptyB).map
    (simOf queryEmbedding)).filter
      (fun r => decide (minSimilarity ≤ r.similarity)))).take 50

structure RerankEntry where
  index : Nat
  score : ℝ

/-- `MemoryManager.search` after the query has been embedded.  The rerank
round trip is an explicit input: none models a thrown rerank request (the
cosine fallback).  An entry whose index is outside the candidate list would
make the JavaScript spread produce a field-less object; the model drops it —
the interface contract returns indices into the documents that were sent.
Defaults: `limit = 5`, `minSimilarity = 0.7`. -/
noncomputable def searchModel (queryEmbedding : List ℝ) (allMemories : List Memory)
    (limit : Nat) (minSimilarity : ℝ)
    (rerankOutcome : Option (List RerankEntry)) : List SearchResult :=
  if (searchCandidates queryEmbedding allMemories minSimilarity).isEmpty then []
  else
    match rerankOutcome with
    | some results =>
      results.filterMap (fun e =>
        ((searchCandidates queryEmbedding allMemories minSimilarity).get? e.index).map
          (fun c => { c with similarity := e.score }))
    | none => (searchCandidates queryEmbedding allMemories minSimilarity).take limit

/-! ## Session manager (SessionManager, src/core/session/manager.ts) -/

def MAX_HISTORY_MESSAGES : Nat := 100

/-- `extractTopics`: first 50 characters of up to five user messages,
newlines flattened, comma-joined, with a fallback on the empty join. -/
def extractTopics (messages : List Message) : String :=
  let userMessages := (((messages.filter (fun m => m.role = Role.user)).map
    (fun m => String.mk (((contentAsString m.content).toList.take 50).map
      (fun c => if c = '\n' then ' ' else c))))).take 5
  let joined := String.intercalate ", " userMessages
  if joined = "" then "general coding assistance" else joined

/-- `SessionManager.compressHistory` on the message list. -/
def compressHistory (messages : List Message) : List Message :=
  let systemMessage := messages.find? (fun m => m.role = Role.system)
  let recentMessages := messages.drop (messages.length - 20)
  let olderMessages :=
    (messages.take (messages.length - 20)).drop (if systemMessage.isSome then 1 else 0)
  if 0 < olderMessages.length then
    let summaryContent := "[Previous conversation compressed: " ++
      toString olderMessages.length ++
      " messages removed to save context. Key topics discussed included: " ++
      extractTopics olderMessages ++ "]"
    (match systemMessage with | some sm => [sm] | none => []) ++
      ({ role := Role.assistant, content := MessageContent.str summaryContent }
        :: recentMessages)
  else messages

/-- `SessionManager.addMessage`: append, then compress past the high-water
mark. -/
def addMessage (messages : List Message) (m : Message) : List Message :=
  let messages := messages ++ [m]
  if MAX_HISTORY_MESSAGES < messages.length then compressHistory messages
  else messages

structure ModelStats where
  inputTokens : Nat := 0
  outputTokens : Nat := 0
  cacheReadTokens : Nat := 0
  totalTokens : Nat := 0
deriving Repr, DecidableEq

structure SessionMetadata where
  projectPath : String
  model : String
  tokensUsed : Nat := 0
  toolsUsed : List String := []
  successfulToolCalls : Nat := 0
  failedToolCalls : Nat := 0
  apiTime : Nat := 0
  toolTime : Nat := 0
  modelUsage : List (String × ModelStats) := []
deriving Repr, DecidableEq

/-- A Session; `startTime` is the Date as milliseconds since the epoch. -/
structure Session where
  id : String
  startTime : Nat
  messages : List Message
  metadata : SessionMetadata
deriving Repr, DecidableEq

/-! ### Date.prototype.toISOString and ISO date parsing -/

def padZeros (len : Nat) (n : Nat) : String :=
  let s := toString n
  String.mk (List.replicate (len - s.length) '0') ++ s

/-- Proleptic Gregorian civil date from days since 1970-01-01
(the standard era/day-of-era division algorithm used by engines). -/
def civilFromDays (z0 : Nat) : Nat × Nat × Nat :=
  let z := z0 + 719468
  let era := z / 146097
  let doe := z % 146097
  let yoe := (doe - doe / 1460 + doe / 36524 - doe / 146096) / 365
  let y := yoe + era * 400
  let doy := doe - (365 * yoe + yoe / 4 - yoe / 100)
  let mp := (5 * doy + 2) / 153
  let d := doy - (153 * mp + 2) / 5 + 1
  let m := if mp < 10 then mp + 3 else mp - 9
  (if m ≤ 2 then y + 1 else y, m, d)

/-- Days since 1970-01-01 from a civil date on or after 1970. -/
def daysFromCivil (y0 m d : Nat) : Nat :=
  let y := if m ≤ 2 then y0 - 1 else y0
  let era := y / 400
  let yoe := y % 400
  let mp := if 2 < m then m - 3 else m + 9
  let doy := (153 * mp + 2) / 5 + d - 1
  let doe := yoe * 365 + yoe / 4 - yoe / 100 + doy
  era * 146097 + doe - 719468

/-- `Date.prototype.toISOString` for a non-negative epoch-millisecond time
(years above 9999 use the expanded year form). -/
def isoOfMs (t : Nat) : String :=
  let days := t / 86400000
  let msInDay := t % 86400000
  let hh := msInDay / 3600000
  let mm := msInDay % 3600000 / 60000
  let ss := msInDay % 60000 / 1000
  let ms := msInDay % 1000
  let ymd := civilFromDays days
  let yearStr := if ymd.1 ≤ 9999 then padZeros 4 ymd.1 else "+" ++ padZeros 6 ymd.1
  yearStr ++ "-" ++ padZeros 2 ymd.2.1 ++ "-" ++ padZeros 2 ymd.2.2 ++
    "T" ++ padZeros 2 hh ++ ":" ++ padZeros 2 mm ++ ":" ++ padZeros 2 ss ++
    "." ++ padZeros 3 ms ++ "Z"

/-- `new Date(isoString).getTime()` for a UTC ISO timestamp; none models an
invalid date. -/
def msOfIso (s : String) : Option Nat :=
  match s.toList.getLast? with
  | some 'Z' =>
    let body := String.mk s.toList.dropLast
    match body.splitOn "T" with
    | [datePart, timePart] =>
      let datePart := if datePart.startsWith "+"
        then String.mk (datePart.toList.drop 1) else datePart
      match datePart.splitOn "-" with
      | [ys, mos, ds] =>
        match timePart.splitOn ":" with
        | [hs, mins, secPart] =>
          match secPart.splitOn "." with
          | [ss, mss] =>
            match ys.toNat?, mos.toNat?, ds.toNat?, hs.toNat?,
                mins.toNat?, ss.toNat?, mss.toNat? with
            | some y, some mo, some d, some hh, some mi, some sec, some ms =>
              some (daysFromCivil y mo d * 86400000 +
                hh * 3600000 + mi * 60000 + sec * 1000 + ms)
            | _, _, _, _, _, _, _ => none
          | _ => none
        | _ => none
      | _ => none
    | _ => none
  | _ => none

/-! ### Session persistence (JSON.stringify on save, JSON.parse plus
`new Date(loaded.startTime)` on load), at the JSON value level -/

def encodeRole : Role → String
  | Role.system => "system"
  | Role.user => "user"
  | Role.assistant => "assistant"
  | Role.tool => "tool"

def decodeRole : String → Option Role
  | "system" => some Role.system
  | "user" => some Role.user
  | "assistant" => some Role.assistant
  | "tool" => some Role.tool
  | _ => none

def asStr : Option Json → Option String
  | some (Json.str s) => some s
  | _ => none

def asNat : Option Json → Option Nat
  | some (Json.num q) => if q.den = 1 && 0 ≤ q.num then some q.num.toNat else none
  | _ => none

def asArrJ : Option Json → Option (List Json)
  | some (Json.arr xs) => some xs
  | _ => none

def encodeImageUrl (i : ImageUrl) : Json :=
  Json.obj ([("url", Json.str i.url)] ++
    (match i.detail with | none => [] | some d => [("detail", Json.str d)]))

def decodeImageUrl (j : Json) : Option ImageUrl :=
  match asStr (j.getField "url") with
  | none => none
  | some url =>
    match j.getField "detail" with
    | none => some { url := url, detail := none }
    | some (Json.str d) => some { url := url, detail := some d }
    | some _ => none

def encodeContentPart (p : ContentPart) : Json :=
  Json.obj ([("type", Json.str p.type)] ++
    (match p.text with | none => [] | some t => [("text", Json.str t)]) ++
    (match p.image_url with | none => [] | some i => [("image_url", encodeImageUrl i)]))

def decodeContentPart (j : Json) : Option ContentPart :=
  match asStr (j.getField "type") with
  | none => none
  | some ty =>
    let text := j.getField "text"
    let iu := j.getField "image_url"
    match text with
    | none =>
      match iu with
      | none => some { type := ty }
      | some ij => (decodeImageUrl ij).map (fun i => { type := ty, image_url := some i })
    | some (Json.str t) =>
      match iu with
      | none => some { type := ty, text := some t }
      | some ij => (decodeImageUrl ij).map
          (fun i => { type := ty, text := some t, image_url := some i })
    | some _ => none

/-- Decode each element, failing when any element fails. -/
def decodeList (f : Json → Option α) : List Json → Option (List α)
  | [] => some []
  | x :: xs =>
    match f x with
    | none => none
    | some a => (decodeList f xs).map (fun l => a :: l)

def encodeContent : MessageContent → Json
  | MessageContent.str s => Json.str s
  | MessageContent.parts ps => Json.arr (ps.map encodeContentPart)

def decodeContent : Json → Option MessageContent
  | Json.str s => some (MessageContent.str s)
  | Json.arr xs => (decodeList decodeContentPart xs).map MessageContent.parts
  | _ => none

def encodeToolCall (tc : ToolCall) : Json :=
  Json.obj [("id", Json.str tc.id), ("type", Json.str "function"),
    ("function", Json.obj [("name", Json.str tc.function.name),
      ("arguments", Json.str tc.function.arguments)])]

def decodeToolCall (j : Json) : Option ToolCall :=
  match asStr (j.getField "id") with
  | none => none
  | some id =>
    match j.getField "function" with
    | some fj =>
      match asStr (fj.getField "name"), asStr (fj.getField "arguments") with
      | some n, some a => some { id := id, function := { name := n, arguments := a } }
      | _, _ => none
    | none => none

def encodeMessage (m : Message) : Json :=
  Json.obj ([("role", Json.str (encodeRole m.role)),
      ("content", encodeContent m.content)] ++
    (match m.name with | none => [] | some n => [("name", Json.str n)]) ++
    (match m.tool_calls with
      | none => []
      | some tcs => [("tool_calls", Json.arr (tcs.map encodeToolCall))]) ++
    (match m.tool_call_id with
      | none => [] | some i => [("tool_call_id", Json.str i)]))

def decodeMessage (j : Json) : Option Message :=
  match asStr (j.getField "role") with
  | none => none
  | some rs =>
    match decodeRole rs with
    | none => none
    | some role =>
      match j.getField "content" with
      | none => none
      | some cj =>
        match decodeContent cj with
        | none => none
        | some content =>
          let name := j.getField "name"
          let tcs := j.getField "tool_calls"
          let tcid := j.getField "tool_call_id"
          match name with
          | some (Json.str n) =>
            (decodeMessageTail role content (some n) tcs tcid)
          | none => decodeMessageTail role content none tcs tcid
          | some _ => none
where
  decodeMessageTail (role : Role) (content : MessageContent)
      (name : Option String) (tcs tcid : Option Json) : Option Message :=
    let tcsDec : Option (Option (List ToolCall)) :=
      match tcs with
      | none => some none
      | some (Json.arr xs) => (decodeList decodeToolCall xs).map some
      | some _ => none
    match tcsDec with
    | none => none
    | some toolCalls =>
      match tcid with
      | none => some { role := role, content := content, name := name,
                       tool_calls := toolCalls, tool_call_id := none }
      | some (Json.str i) =>
        some { role := role, content := content, name := name,
               tool_calls := toolCalls, tool_call_id := some i }
      | some _ => none

def encodeModelStats (s : ModelStats) : Json :=
  Json.obj [("inputTokens", Json.num s.inputTokens),
    ("outputTokens", Json.num s.outputTokens),
    ("cacheReadTokens", Json.num s.cacheReadTokens),
    ("totalTokens", Json.num s.totalTokens)]

def decodeModelStats (j : Json) : Option ModelStats :=
  match asNat (j.getField "inputTokens"), asNat (j.getField "outputTokens"),
      asNat (j.getField "cacheReadTokens"), asNat (j.getField "totalTokens") with
  | some a, some b, some c, some d =>
    some { inputTokens := a, outputTokens := b, cacheReadTokens := c, totalTokens := d }
  | _, _, _, _ => none

def decodeUsageEntries : List (String × Json) → Option (List (String × ModelStats))
  | [] => some []
  | (k, v) :: rest =>
    match decodeModelStats v with
    | none => none
    | some s => (decodeUsageEntries rest).map (fun l => (k, s) :: l)

def encodeMetadata (m : SessionMetadata) : Json :=
  Json.obj [("projectPath", Json.str m.projectPath),
    ("model", Json.str m.model),
    ("tokensUsed", Json.num m.tokensUsed),
    ("toolsUsed", Json.arr (m.toolsUsed.map Json.str)),
    ("successfulToolCalls", Json.num m.successfulToolCalls),
    ("failedToolCalls", Json.num m.failedToolCalls),
    ("apiTime", Json.num m.apiTime),
    ("toolTime", Json.num m.toolTime),
    ("modelUsage", Json.obj (m.modelUsage.map (fun p => (p.1, encodeModelStats p.2))))]

def decodeMetadata (j : Json) : Option SessionMetadata :=
  match asStr (j.getField "projectPath"), asStr (j.getField "model"),
      asNat (j.getField "tokensUsed"),
      asArrJ (j.getField "toolsUsed") with
  | some pp, some model, some tok, some toolsJ =>
    match decodeList (fun x => asStr (some x)) toolsJ with
    | none => none
    | some tools =>
      match asNat (j.getField "successfulToolCalls"),
          asNat (j.getField "failedToolCalls"),
          asNat (j.getField "apiTime"), asNat (j.getField "toolTime") with
      | some stc, some ftc, some at_, some tt =>
        match j.getField "modelUsage" with
        | some (Json.obj fields) =>
          match decodeUsageEntries fields with
          | none => none
          | some mu =>
            some { projectPath := pp, model := model, tokensUsed := tok,
                   toolsUsed := tools, successfulToolCalls := stc,
                   failedToolCalls := ftc, apiTime := at_, toolTime := tt,
                   modelUsage := mu }
        | _ => none
      | _, _, _, _ => none
  | _, _, _, _ => none

/-- `JSON.stringify(this.session)` as a JSON value (the Date serializes to
its ISO string). -/
def encodeSession (s : Session) : Json :=
  Json.obj [("id", Json.str s.id),
    ("startTime", Json.str (isoOfMs s.startTime)),
    ("messages", Json.arr (s.messages.map encodeMessage)),
    ("metadata", encodeMetadata s.metadata)]

/-- `SessionManager.load`: parse the persisted value and rebuild
`startTime` with `new Date(loaded.startTime)` from the ISO string (an
unparsable string is an Invalid Date, modelled as millisecond value 0). -/
def loadSession (j : Json) : Option Session :=
  match asStr (j.getField "id"), asStr (j.getField "startTime"),
      asArrJ (j.getField "messages"), j.getField "metadata" with
  | some id, some st, some msgsJ, some mj =>
    match decodeList decodeMessage msgsJ, decodeMetadata mj with
    | some msgs, some md =>
      some { id := id, startTime := (msOfIso st).getD 0, messages := msgs,
             metadata := md }
    | _, _ => none
  | _, _, _, _ => none

/-! ## Concrete fixtures used by closed evaluations -/

def countRole (r : Role) (l : List Message) : Nat :=
  (l.filter (fun m => m.role = r)).length

def fxOptsNever : ExecutorOptions :=
  { approvalMode := ApprovalMode.never, onApprovalRequest := none }

def fxOptsUnsafeNoCb : ExecutorOptions :=
  { approvalMode := ApprovalMode.unsafeOnly, onApprovalRequest := none }

def fxOptsUnsafeDeny : ExecutorOptions :=
  { approvalMode := ApprovalMode.unsafeOnly,
    onApprovalRequest := some (fun _ _ => Except.ok false) }

/-- A tool whose handler raises. -/
def fxBoomHandler : ToolHandlerM :=
  { name := "t", safeToAutoRun := true, execute := fun _ => Except.error "boom" }

def fxRegBoom : List ToolHandlerM := [fxBoomHandler]

/-- A non-auto-safe tool whose handler returns. -/
def fxDangerHandler : ToolHandlerM :=
  { name := "danger", safeToAutoRun := false, execute := fun _ => Except.ok "ran" }

def fxRegDanger : List ToolHandlerM := [fxDangerHandler]

def fxTcBoom : ToolCall :=
  { id := "c1", function := { name := "t", arguments := "\x7b\x7d" } }

def fxTcBadArgs : ToolCall :=
  { id := "c2", function := { name := "t", arguments := "oops" } }

def fxTcUnknown : ToolCall :=
  { id := "c3", function := { name := "ghost", arguments := "\x7b\x7d" } }

def fxTcDanger : ToolCall :=
  { id := "c4", function := { name := "danger", arguments := "\x7b\x7d" } }

def fxCfgBoom : AgentCfg :=
  { systemPrompt := "sp", maxIterations := 10, reg := fxRegBoom,
    execOpts := fxOptsNever, hooks := fun _ => [],
    api := fun _ => Except.error "unused" }

def fxApiDone : Nat → Except String ApiReply := fun _ =>
  Except.ok { message := { role := Role.assistant, content := MessageContent.str "done" } }

def fxCfgSimple : AgentCfg :=
  { systemPrompt := "sp", maxIterations := 10, reg := [],
    execOpts := fxOptsNever, hooks := fun _ => [], api := fxApiDone }

def fxMsgNope : Message :=
  { role := Role.assistant, content := MessageContent.str "<tool_call>nope</tool_call>" }

def fxMsgLook : Message :=
  { role := Role.assistant,
    content := MessageContent.str
      "I will look.\n<tool_call>\x7b\"name\":\"find_files\",\"arguments\":\x7b\"pattern\":\"*.md\"\x7d\x7d</tool_call>" }

def fxHookSkip : HookHandlerM :=
  { id := "h1", name := "skip", event := HookEvent.PreToolUse,
    matcher := some (fun _ => false), run := fun _ => Except.ok none }

def fxHookNote : HookHandlerM :=
  { id := "h2", name := "note", event := HookEvent.PreToolUse,
    run := fun _ => Except.ok (some { block := false, addContent := some "n" }) }

def fxHookBlock : HookHandlerM :=
  { id := "h3", name := "blocker", event := HookEvent.PreToolUse,
    run := fun _ => Except.ok (some { block := true, blockReason := some "read-only" }) }

def fxHookTail : HookHandlerM :=
  { id := "h4", name := "tail", event := HookEvent.PreToolUse,
    run := fun _ => Except.ok (some { block := false }) }

def fxHookInput : HookInputM := { toolName := some "write_file" }

def fxU (s : String) : Message := { role := Role.user, content := MessageContent.str s }
def fxA (s : String) : Message := { role := Role.assistant, content := MessageContent.str s }
def fxSys : Message := { role := Role.system, content := MessageContent.str "SYS" }

/-- 30 messages whose single system message sits at index 25. -/
def fxMsgs30 : List Message :=
  (List.range 25).map (fun i =>
    if i % 2 = 0 then fxU ("u" ++ toString i) else fxA ("a" ++ toString i)) ++
    [fxSys] ++ (List.range 4).map (fun i => fxA ("t" ++ toString i))

/-- 23 messages led by the system prompt (compression has two to remove). -/
def fxMsgs23 : List Message :=
  fxSys :: (List.range 22).map (fun i =>
    if i % 2 = 0 then fxU ("u" ++ toString i) else fxA ("a" ++ toString i))

def fxMemA : Memory :=
  { id := "m1", content := "prefer tabs", type := MemoryType.preference,
    embedding := some [1] }

noncomputable def fxRes : SearchResult := { fxMemA with similarity := 1 }

/-- The state a one-iteration run of the simple agent ends in. -/
def fxRunRes : AgentSt :=
  { messages := [{ role := Role.system, content := MessageContent.str "sp" },
      { role := Role.user, content := MessageContent.str "hi" },
      { role := Role.assistant, content := MessageContent.str "done" }]
    iterations := 1, finalContent := "done", toolsUsed := []
    successfulToolCalls := 0, failedToolCalls := 0, usage := initUsage }

/-- The outcome of a denied execution of the danger tool. -/
def fxDeniedOutcome : ExecOutcome :=
  { result :=
      { tool_call_id := "c4"
        content := "Tool execution was denied by the user."
        isError := some true }
    trace := { approvalRequested := true, handlerInvoked := false } }

/-- The dispatch record of the raising handler inside the agent loop. -/
def fxBoomRecord : CallRecord :=
  { result := { tool_call_id := "c1", content := "Error: boom", isError := some true }
    fired := [HookEvent.PreToolUse, HookEvent.PostToolUse]
    blockedByHook := false
    succeeded := true }

/-!
# Theorems

Each claim of the specification is settled below; helper lemmas come first.
-/

/-- Claim C5: for a tool call whose argument string is not valid JSON the
executor returns a textual error-flagged ToolResult with no approval request
and no handler invocation; for a call naming a tool absent from the registry
it returns an error-flagged ToolResult naming the unknown tool, likewise
with no approval request and no handler invocation. -/
theorem c5_executor_short_circuits (reg : List ToolHandlerM)
    (opts : ExecutorOptions) (tc : ToolCall) :
    (parseJson tc.function.arguments = none →
      executeToolCall reg opts tc = Except.ok
        { result :=
            { tool_call_id := tc.id
              content := "Error: Failed to parse tool arguments: " ++ tc.function.arguments
              isError := some true }
          trace := { approvalRequested := false, handlerInvoked := false } }) ∧
    (∀ args, parseJson tc.function.arguments = some args →
      registryGet reg tc.function.name = none →
      executeToolCall reg opts tc = Except.ok
        { result :=
            { tool_call_id := tc.id
              content := "Error: Unknown tool: " ++ tc.function.name
              isError := some true }
          trace := { approvalRequested := false, handlerInvoked := false } }) := by
  constructor
  · intro h
    simp [executeToolCall, h]
  · intro args hp hg
    simp [executeToolCall, hp, hg]

theorem c5_witness :
    parseJson fxTcBadArgs.function.arguments = none ∧
    executeToolCall fxRegBoom fxOptsNever fxTcBadArgs = Except.ok
      { result :=
          { tool_call_id := "c2"
            content := "Error: Failed to parse tool arguments: oops"
            isError := some true }
        trace := { approvalRequested := false, handlerInvoked := false } } ∧
    parseJson fxTcUnknown.function.arguments = some (Json.obj []) ∧
    registryGet fxRegBoom fxTcUnknown.function.name = none ∧
    executeToolCall fxRegBoom fxOptsNever fxTcUnknown = Except.ok
      { result :=
          { tool_call_id := "c3"
            content := "Error: Unknown tool: ghost"
            isError := some true }
        trace := { approvalRequested := false, handlerInvoked := false } } :=
  ⟨rfl, (c5_executor_short_circuits fxRegBoom fxOptsNever fxTcBadArgs).1 rfl,
   rfl, rfl,
   (c5_executor_short_circuits fxRegBoom fxOptsNever fxTcUnknown).2 (Json.obj []) rfl rfl⟩

/-- Claim C10: when the approval mode demands approval but no approval
callback is configured, the executor denies by default: it returns the
error-flagged denied-by-user ToolResult and never invokes the handler. -/
theorem c10_default_deny (reg : List ToolHandlerM) (opts : ExecutorOptions)
    (tc : ToolCall) (args : Json) (handler : ToolHandlerM)
    (hp : parseJson tc.function.arguments = some args)
    (hg : registryGet reg tc.function.name = some handler)
    (hn : needsApproval opts handler = true)
    (hc : opts.onApprovalRequest = none) :
    executeToolCall reg opts tc = Except.ok
      { result :=
          { tool_call_id := tc.id
            content := "Tool execution was denied by the user."
            isError := some true }
        trace := { approvalRequested := true, handlerInvoked := false } } := by
  simp [executeToolCall, hp, hg, hn, requestApproval, hc]

theorem c10_witness :
    parseJson fxTcDanger.function.arguments = some (Json.obj []) ∧
    registryGet fxRegDanger fxTcDanger.function.name = some fxDangerHandler ∧
    needsApproval fxOptsUnsafeNoCb fxDangerHandler = true ∧
    fxOptsUnsafeNoCb.onApprovalRequest = none ∧
    executeToolCall fxRegDanger fxOptsUnsafeNoCb fxTcDanger = Except.ok
      { result :=
          { tool_call_id := fxTcDanger.id
            content := "Tool execution was denied by the user."
            isError := some true }
        trace := { approvalRequested := true, handlerInvoked := false } } :=
  ⟨rfl, rfl, rfl, rfl,
   c10_default_deny fxRegDanger fxOptsUnsafeNoCb fxTcDanger (Json.obj [])
     fxDangerHandler rfl rfl rfl rfl⟩

/-- The trace of a handler invocation records the approval decision and the
invocation, whether the handler returned or raised. -/
theorem runHandlerStep_trace (handler : ToolHandlerM) (id : String)
    (args : Json) (asked : Bool) :
    (runHandlerStep handler id args asked).trace =
      { approvalRequested := asked, handlerInvoked := true } := by
  rcases hx : handler.execute args with r | e <;> simp [runHandlerStep, hx]

/-- Claim C4: for a tool call that reaches the approval step (arguments
parse, tool found), approval is requested exactly when the approval mode
demands it (always: every tool; never: none; unsafe-only: exactly the tools
whose auto-safe flag is false), and a callback answering false yields the
error-flagged denied-by-user ToolResult without invoking the handler. -/
theorem c4_approval_gating (reg : List ToolHandlerM) (opts : ExecutorOptions)
    (tc : ToolCall) (args : Json) (handler : ToolHandlerM) (out : ExecOutcome)
    (hp : parseJson tc.function.arguments = some args)
    (hg : registryGet reg tc.function.name = some handler)
    (hr : executeToolCall reg opts tc = Except.ok out) :
    out.trace.approvalRequested = needsApproval opts handler ∧
    (opts.approvalMode = ApprovalMode.always → out.trace.approvalRequested = true) ∧
    (opts.approvalMode = ApprovalMode.never → out.trace.approvalRequested = false) ∧
    (opts.approvalMode = ApprovalMode.unsafeOnly →
      out.trace.approvalRequested = !handler.safeToAutoRun) ∧
    (needsApproval opts handler = true →
      requestApproval opts tc.function.name args = Except.ok false →
      out.result =
        { tool_call_id := tc.id
          content := "Tool execution was denied by the user."
          isError := some true } ∧
      out.trace.handlerInvoked = false) := by
  have hmain : out.trace.approvalRequested = needsApproval opts handler ∧
      (needsApproval opts handler = true →
        requestApproval opts tc.function.name args = Except.ok false →
        out.result =
          { tool_call_id := tc.id
            content := "Tool execution was denied by the user."
            isError := some true } ∧
        out.trace.handlerInvoked = false) := by
    simp only [executeToolCall, hp, hg] at hr
    rcases hn : needsApproval opts handler with _ | _
    · simp only [hn, Bool.false_eq_true, if_false, Except.ok.injEq] at hr
      subst hr
      refine ⟨by simp [runHandlerStep_trace, hn], ?_⟩
      intro hh _
      exact absurd hh (by simp)
    · simp only [hn, if_true] at hr
      rcases hq : requestApproval opts tc.function.name args with e | b
      · rw [hq] at hr; cases hr
      · rcases b with _ | _
        · rw [hq] at hr
          simp only [Except.ok.injEq] at hr
          subst hr
          simp [hn]
        · rw [hq] at hr
          simp only [Except.ok.injEq] at hr
          subst hr
          refine ⟨by simp [runHandlerStep_trace, hn], ?_⟩
          intro _ hq2
          exact absurd hq2 (by simp)
  refine ⟨hmain.1, ?_, ?_, ?_, hmain.2⟩
  · intro hm; rw [hmain.1]; simp [needsApproval, hm]
  · intro hm; rw [hmain.1]; simp [needsApproval, hm]
  · intro hm; rw [hmain.1]; simp [needsApproval, hm]

theorem c4_witness :
    parseJson fxTcDanger.function.arguments = some (Json.obj []) ∧
    registryGet fxRegDanger fxTcDanger.function.name = some fxDangerHandler ∧
    executeToolCall fxRegDanger fxOptsUnsafeDeny fxTcDanger =
      Except.ok fxDeniedOutcome ∧
    (fxDeniedOutcome.trace.approvalRequested =
        needsApproval fxOptsUnsafeDeny fxDangerHandler ∧
      (fxOptsUnsafeDeny.approvalMode = ApprovalMode.always →
        fxDeniedOutcome.trace.approvalRequested = true) ∧
      (fxOptsUnsafeDeny.approvalMode = ApprovalMode.never →
        fxDeniedOutcome.trace.approvalRequested = false) ∧
      (fxOptsUnsafeDeny.approvalMode = ApprovalMode.unsafeOnly →
        fxDeniedOutcome.trace.approvalRequested = !fxDangerHandler.safeToAutoRun) ∧
      (needsApproval fxOptsUnsafeDeny fxDangerHandler = true →
        requestApproval fxOptsUnsafeDeny fxTcDanger.function.name (Json.obj []) =
          Except.ok false →
        fxDeniedOutcome.result =
          { tool_call_id := fxTcDanger.id
            content := "Tool execution was denied by the user."
            isError := some true } ∧
        fxDeniedOutcome.trace.handlerInvoked = false)) :=
  ⟨rfl, rfl, rfl,
   c4_approval_gating fxRegDanger fxOptsUnsafeDeny fxTcDanger (Json.obj [])
     fxDangerHandler fxDeniedOutcome rfl rfl rfl⟩

/-- Claim C1 (amended): for every tool call the agent loop dispatches
without crashing the turn, exactly one of the outcomes PreToolUse block,
PostToolUse, PostToolUseFailure fires, and a blocked call runs no other
hook pipeline. -/
theorem c1_dispatch_outcomes (cfg : AgentCfg) (tc : ToolCall) (out : CallRecord)
    (h : processToolCall cfg tc = Except.ok out) :
    out.fired.count HookEvent.PreToolUse = 1 ∧
    out.fired.count HookEvent.PostToolUse +
      out.fired.count HookEvent.PostToolUseFailure +
      (if out.blockedByHook then 1 else 0) = 1 ∧
    (out.blockedByHook = true → out.fired = [HookEvent.PreToolUse]) := by
  have hdr : ∀ hookInput, (dispatchRecord cfg tc hookInput).blockedByHook = false ∧
      ((dispatchRecord cfg tc hookInput).fired =
          [HookEvent.PreToolUse, HookEvent.PostToolUse] ∨
        (dispatchRecord cfg tc hookInput).fired =
          [HookEvent.PreToolUse, HookEvent.PostToolUseFailure]) := by
    intro hookInput
    rcases hx : executeToolCall cfg.reg cfg.execOpts tc with e | eo <;>
      simp [dispatchRecord, hx]
  unfold processToolCall at h
  split at h
  · simp at h
  · rename_i ti hpj
    split at h
    · simp only [Except.ok.injEq] at h
      subst h
      exact ⟨by simp, by simp, fun _ => rfl⟩
    · simp only [Except.ok.injEq] at h
      subst h
      refine ⟨?_, ?_, ?_⟩
      · rcases (hdr (mkPreHookInput cfg tc ti)).2 with hfi | hfi <;>
          rw [hfi] <;> decide
      · rcases (hdr (mkPreHookInput cfg tc ti)).2 with hfi | hfi <;>
          rw [hfi, (hdr (mkPreHookInput cfg tc ti)).1] <;> decide
      · intro hb
        rw [(hdr (mkPreHookInput cfg tc ti)).1] at hb
        exact absurd hb (by simp)
  

/-- Claim C1 counterexample: the handler of the dispatched tool raises, the
executor converts the exception into an error-flagged ToolResult, and the
agent loop fires PostToolUse — not PostToolUseFailure — while counting the
call successful. -/
theorem c1_counterexample :
    fxBoomHandler.execute (Json.obj []) = Except.error "boom" ∧
    processToolCall fxCfgBoom fxTcBoom = Except.ok fxBoomRecord ∧
    fxBoomRecord.fired.count HookEvent.PostToolUseFailure = 0 ∧
    fxBoomRecord.result.isError = some true ∧
    fxBoomRecord.succeeded = true :=
  ⟨rfl, rfl, rfl, rfl, rfl⟩

theorem c1_witness :
    processToolCall fxCfgBoom fxTcBoom = Except.ok fxBoomRecord ∧
    (fxBoomRecord.fired.count HookEvent.PreToolUse = 1 ∧
      fxBoomRecord.fired.count HookEvent.PostToolUse +
        fxBoomRecord.fired.count HookEvent.PostToolUseFailure +
        (if fxBoomRecord.blockedByHook then 1 else 0) = 1 ∧
      (fxBoomRecord.blockedByHook = true →
        fxBoomRecord.fired = [HookEvent.PreToolUse])) :=
  ⟨rfl, c1_dispatch_outcomes fxCfgBoom fxTcBoom fxBoomRecord rfl⟩

/-- Pattern 2 on an array whose second element is null: the call for `x`
is pushed, the null element throws TypeError at the name access and aborts
the loop, and `y` is never extracted. -/
theorem pattern2Calls_aborts_at_null :
    (pattern2Calls 0
        "[\x7b\"name\":\"x\"\x7d, null, \x7b\"name\":\"y\"\x7d]".toList).map
      (fun tc => tc.function.name) = ["x"] := by
  decide

/-- Pattern 2 when the aborting null precedes every named element: nothing
was pushed before the TypeError, so extraction yields no calls at all. -/
theorem pattern2Calls_null_before_name :
    pattern2Calls 0
      "[\x7b\"a\":1\x7d, null, \x7b\"name\":\"x\"\x7d]".toList = [] := by
  decide

/-- Claim C2 counterexample: the assistant message consists of a
`<tool_call>` region whose inner text is not JSON; extraction produces no
tool calls and the returned content still carries the complete markup. -/
theorem c2_counterexample :
    strIncludes (contentAsString fxMsgNope.content) "<tool_call>" = true ∧
    (extractToolCalls 0 fxMsgNope).tool_calls = none ∧
    (extractToolCalls 0 fxMsgNope).content =
      MessageContent.str "<tool_call>nope</tool_call>" :=
  ⟨rfl, rfl, rfl⟩

/-- Claim C2 (amended): when a completion without structured tool calls has
string content carrying tool-call or name markup and the textual parser
extracts at least one call, the returned message carries those (one or
more) calls and its content is the original with every matched
`<tool_call>`…`</tool_call>` region removed, trimmed. -/
theorem c2_extraction (now : Nat) (m : Message) (c : String)
    (hnc : m.tool_calls = none ∨ m.tool_calls = some [])
    (hc : m.content = MessageContent.str c)
    (hmark : (strIncludes c "<tool_call>" || strIncludes c "\"name\"") = true)
    (hp : parseQwen3ToolCalls now c ≠ []) :
    (extractToolCalls now m).tool_calls = some (parseQwen3ToolCalls now c) ∧
    1 ≤ (parseQwen3ToolCalls now c).length ∧
    (extractToolCalls now m).content =
      MessageContent.str (jsTrim (stripToolCallRegions c)) := by
  have hcs : contentAsString m.content = c := by rw [hc]; rfl
  have hnc' : (match m.tool_calls with
      | none => true
      | some tcs => tcs.isEmpty) = true := by
    rcases hnc with h | h <;> simp [h]
  have hne : (parseQwen3ToolCalls now c).isEmpty = false := by
    rcases hl : parseQwen3ToolCalls now c with _ | ⟨x, xs⟩
    · exact absurd hl hp
    · rfl
  refine ⟨?_, List.length_pos.mpr hp, ?_⟩ <;>
    simp only [extractToolCalls, hcs, hnc', hmark, hne, Bool.not_false,
      eq_self_iff_true, if_true]

theorem c2_witness :
    (fxMsgLook.tool_calls = none ∨ fxMsgLook.tool_calls = some []) ∧
    ((strIncludes (contentAsString fxMsgLook.content) "<tool_call>"
        || strIncludes (contentAsString fxMsgLook.content) "\"name\"") = true) ∧
    parseQwen3ToolCalls 7 (contentAsString fxMsgLook.content) ≠ [] ∧
    ((extractToolCalls 7 fxMsgLook).tool_calls =
        some (parseQwen3ToolCalls 7 (contentAsString fxMsgLook.content)) ∧
      1 ≤ (parseQwen3ToolCalls 7 (contentAsString fxMsgLook.content)).length ∧
      (extractToolCalls 7 fxMsgLook).content = MessageContent.str
        (jsTrim (stripToolCallRegions (contentAsString fxMsgLook.content)))) :=
  ⟨Or.inl rfl, rfl, by decide,
   c2_extraction 7 fxMsgLook (contentAsString fxMsgLook.content)
     (Or.inl rfl) rfl rfl (by decide)⟩

/-- Claim C3: hook handlers run in registration order, skipping matcher
misses; at most the final returned output blocks; when a block occurs the
blocking handler is the last one invoked and no later-registered handler
runs; without a block exactly the non-skipped handlers run, in order. -/
theorem c3_hook_pipeline (handlers : List HookHandlerM) (input : HookInputM) :
    (hooksExecute handlers input).2.Sublist handlers ∧
    (∀ o ∈ (hooksExecute handlers input).1, o.block = true →
      (hooksExecute handlers input).1.getLast? = some o) ∧
    ((hooksExecute handlers input).1.any (fun o => o.block) = true →
      ∃ l₁ h l₂ inv, handlers = l₁ ++ h :: l₂ ∧
        (hooksExecute handlers input).2 = inv ++ [h] ∧ inv.Sublist l₁) ∧
    ((hooksExecute handlers input).1.any (fun o => o.block) = false →
      (hooksExecute handlers input).2 =
        handlers.filter (fun h => !hookSkipped h input)) := by
  induction handlers with
  | nil => simp [hooksExecute]
  | cons h rest ih =>
    obtain ⟨ihSub, ihLast, ihBlock, ihAll⟩ := ih
    by_cases hsk : hookSkipped h input
    · rw [show hooksExecute (h :: rest) input = hooksExecute rest input by
        simp [hooksExecute, hsk]]
      refine ⟨ihSub.cons h, ihLast, ?_, ?_⟩
      · intro hb
        obtain ⟨l₁, hb', l₂, inv, hsplit, hinv, hsub⟩ := ihBlock hb
        exact ⟨h :: l₁, hb', l₂, inv, by rw [hsplit]; rfl, hinv, hsub.cons h⟩
      · intro hnb
        rw [ihAll hnb, List.filter_cons, if_neg (by simp [hsk])]
    · rcases hr : h.run input with e | o
      · rw [show hooksExecute (h :: rest) input =
            ((hooksExecute rest input).1, h :: (hooksExecute rest input).2) by
          simp [hooksExecute, hsk, hr]]
        refine ⟨ihSub.cons₂ h, ihLast, ?_, ?_⟩
        · intro hb
          obtain ⟨l₁, hb', l₂, inv, hsplit, hinv, hsub⟩ := ihBlock hb
          exact ⟨h :: l₁, hb', l₂, h :: inv, by rw [hsplit]; rfl,
            by rw [hinv]; rfl, hsub.cons₂ h⟩
        · intro hnb
          rw [ihAll hnb, List.filter_cons, if_pos (by simp [hsk])]
      · rcases o with _ | result
        · rw [show hooksExecute (h :: rest) input =
              ((hooksExecute rest input).1, h :: (hooksExecute rest input).2) by
            simp [hooksExecute, hsk, hr]]
          refine ⟨ihSub.cons₂ h, ihLast, ?_, ?_⟩
          · intro hb
            obtain ⟨l₁, hb', l₂, inv, hsplit, hinv, hsub⟩ := ihBlock hb
            exact ⟨h :: l₁, hb', l₂, h :: inv, by rw [hsplit]; rfl,
              by rw [hinv]; rfl, hsub.cons₂ h⟩
          · intro hnb
            rw [ihAll hnb, List.filter_cons, if_pos (by simp [hsk])]
        · by_cases hblk : result.block = true
          · rw [show hooksExecute (h :: rest) input = ([result], [h]) by
              simp [hooksExecute, hsk, hr, hblk]]
            refine ⟨(List.nil_sublist rest).cons₂ h, ?_, ?_, ?_⟩
            · intro o ho _
              simp only [List.mem_singleton] at ho
              subst ho
              rfl
            · intro _
              exact ⟨[], h, rest, [], rfl, rfl, List.Sublist.refl []⟩
            · intro hnb
              simp [hblk] at hnb
          · have hblk' : result.block = false := by
              revert hblk; cases result.block <;> simp
            rw [show hooksExecute (h :: rest) input =
                (result :: (hooksExecute rest input).1,
                  h :: (hooksExecute rest input).2) by
              simp [hooksExecute, hsk, hr, hblk']]
            refine ⟨ihSub.cons₂ h, ?_, ?_, ?_⟩
            · intro o ho hob
              rcases List.mem_cons.mp ho with hoe | hom
              · subst hoe
                exact absurd hob (by simp [hblk'])
              · have hlast := ihLast o hom hob
                rcases hos : (hooksExecute rest input).1 with _ | ⟨x, xs⟩
                · rw [hos] at hom
                  cases hom
                · rw [hos] at hlast
                  rw [List.getLast?_cons_cons]
                  exact hlast
            · intro hb
              have hb' : (hooksExecute rest input).1.any (fun o => o.block) = true := by
                simp only [List.any_cons, hblk', Bool.false_or] at hb
                exact hb
              obtain ⟨l₁, hbh, l₂, inv, hsplit, hinv, hsub⟩ := ihBlock hb'
              exact ⟨h :: l₁, hbh, l₂, h :: inv, by rw [hsplit]; rfl,
                by rw [hinv]; rfl, hsub.cons₂ h⟩
            · intro hnb
              simp only [List.any_cons, hblk', Bool.false_or] at hnb
              rw [ihAll hnb, List.filter_cons, if_pos (by simp [hsk])]

theorem decodeRole_encode (r : Role) : decodeRole (encodeRole r) = some r := by
  cases r <;> rfl

theorem decodeContentPart_encode (p : ContentPart) :
    decodeContentPart (encodeContentPart p) = some p := by
  rcases p with ⟨ty, text, iu⟩
  rcases text with _ | t <;> rcases iu with _ | i <;>
    first
    | rfl
    | (rcases i with ⟨url, detail⟩; rcases detail with _ | d <;> rfl)

theorem decodeParts_encode (ps : List ContentPart) :
    decodeList decodeContentPart (ps.map encodeContentPart) = some ps := by
  induction ps with
  | nil => rfl
  | cons p ps ih => simp [decodeList, decodeContentPart_encode p, ih]

theorem decodeContent_encode (c : MessageContent) :
    decodeContent (encodeContent c) = some c := by
  cases c with
  | str s => rfl
  | parts ps => simp [decodeContent, encodeContent, decodeParts_encode ps]

theorem decodeToolCall_encode (tc : ToolCall) :
    decodeToolCall (encodeToolCall tc) = some tc := rfl

theorem decodeToolCalls_encode (l : List ToolCall) :
    decodeList decodeToolCall (l.map encodeToolCall) = some l := by
  induction l with
  | nil => rfl
  | cons tc l ih => simp [decodeList, decodeToolCall_encode tc, ih]

theorem decodeMessage_encode (m : Message) :
    decodeMessage (encodeMessage m) = some m := by
  rcases m with ⟨role, content, name, tcs, tcid⟩
  rcases name with _ | n <;> rcases tcs with _ | tl <;> rcases tcid with _ | i <;>
    simp [decodeMessage, encodeMessage, decodeMessage.decodeMessageTail,
      Json.getField, List.lookup, asStr, decodeRole_encode, decodeContent_encode,
      decodeToolCalls_encode]

theorem asNat_natCast (n : Nat) : asNat (some (Json.num (n : Rat))) = some n := by
  simp [asNat]

theorem asStr_str (s : String) : asStr (some (Json.str s)) = some s := rfl

theorem decodeStrings_encode (ts : List String) :
    decodeList (fun x => asStr (some x)) (ts.map Json.str) = some ts := by
  induction ts with
  | nil => rfl
  | cons t ts ih => simp [decodeList, asStr_str, ih]

theorem decodeModelStats_encode (s : ModelStats) :
    decodeModelStats (encodeModelStats s) = some s := by
  simp [decodeModelStats, encodeModelStats, Json.getField, asNat, List.lookup]

theorem decodeUsageEntries_encode (mu : List (String × ModelStats)) :
    decodeUsageEntries (mu.map (fun p => (p.1, encodeModelStats p.2))) = some mu := by
  induction mu with
  | nil => rfl
  | cons p mu ih => simp [decodeUsageEntries, decodeModelStats_encode, ih]

theorem decodeMetadata_encode (md : SessionMetadata) :
    decodeMetadata (encodeMetadata md) = some md := by
  simp [decodeMetadata, encodeMetadata, Json.getField, List.lookup, asStr_str,
    asArrJ, asNat_natCast, decodeStrings_encode, decodeUsageEntries_encode]

theorem decodeMessages_encode (l : List Message) :
    decodeList decodeMessage (l.map encodeMessage) = some l := by
  induction l with
  | nil => rfl
  | cons m l ih => simp [decodeList, decodeMessage_encode, ih]

/-- Claim C9: saving a session and loading it back yields the same Message
sequence and the same metadata counters (tokens, tool-call counts, api and
tool time, tools used, per-model usage); the start time is rebuilt by
parsing the ISO string the Date serialized to. -/
theorem c9_session_roundtrip (s : Session) :
    loadSession (encodeSession s) =
      some { s with startTime := (msOfIso (isoOfMs s.startTime)).getD 0 } := by
  simp [loadSession, encodeSession, Json.getField, List.lookup, asStr_str,
    asArrJ, decodeMessages_encode, decodeMetadata_encode]

/-- Claim C7 counterexample: a 30-message transcript whose single system
message sits at index 25.  Compression moves that system message to the
front: before compression the first message is a user message, afterwards
it is the system message, refuting both first-message preservation and the
`messages[0].role == system` equivalence. -/
theorem c7_counterexample :
    20 < fxMsgs30.length ∧
    fxMsgs30.head?.map (fun m => m.role) = some Role.user ∧
    (compressHistory fxMsgs30).head?.map (fun m => m.role) = some Role.system :=
  ⟨by decide, by decide, by decide⟩

/-- Claim C7 (amended): on a transcript with more than 20 messages (21 when
led by a system message), in which a system message can only sit at index 0,
compression keeps the leading system message if present, replaces everything
between it and the most recent 20 messages by exactly one assistant-role
placeholder reporting the removed count and the topic hint of the removed
messages, keeps the last 20 originals in order, and preserves whether
`messages[0]` is a system message. -/
theorem c7_compression (messages : List Message)
    (h1 : ∀ m ∈ messages.drop 1, m.role ≠ Role.system)
    (h2 : 20 + (if messages.head?.map (fun m => m.role) = some Role.system
      then 1 else 0) < messages.length) :
    ∃ ph : Message,
      compressHistory messages =
        (if messages.head?.map (fun m => m.role) = some Role.system
          then messages.take 1 else []) ++
          ph :: messages.drop (messages.length - 20) ∧
      ph.role = Role.assistant ∧
      ph.content = MessageContent.str
        ("[Previous conversation compressed: " ++
          toString ((messages.take (messages.length - 20)).drop
            (if messages.head?.map (fun m => m.role) = some Role.system
              then 1 else 0)).length ++
          " messages removed to save context. Key topics discussed included: " ++
          extractTopics ((messages.take (messages.length - 20)).drop
            (if messages.head?.map (fun m => m.role) = some Role.system
              then 1 else 0)) ++ "]") ∧
      ((compressHistory messages).head?.map (fun m => m.role) = some Role.system ↔
        messages.head?.map (fun m => m.role) = some Role.system) := by
  cases messages with
  | nil => simp at h2
  | cons m0 rest =>
    replace h1 : ∀ m ∈ rest, m.role ≠ Role.system := by simpa using h1
    by_cases hm0 : m0.role = Role.system
    · have hhead : (m0 :: rest).head?.map (fun m => m.role) = some Role.system := by
        simp [hm0]
      have hfind : (m0 :: rest).find? (fun m => m.role = Role.system) = some m0 :=
        List.find?_cons_of_pos _ (by simp [hm0])
      have h2' : 21 < (m0 :: rest).length := by
        rw [hhead] at h2
        simpa using h2
      have holder :
          0 < (((m0 :: rest).take ((m0 :: rest).length - 20)).drop 1).length := by
        simp only [List.length_drop, List.length_take]
        omega
      simp only [hhead, eq_self_iff_true, if_true]
      unfold compressHistory
      rw [hfind]
      simp only [Option.isSome_some, if_true, if_pos holder]
      exact ⟨_, rfl, rfl, rfl, by simp [hm0]⟩
    · have hhead : ¬((m0 :: rest).head?.map (fun m => m.role) = some Role.system) := by
        simp [hm0]
      have hfind : (m0 :: rest).find? (fun m => m.role = Role.system) = none := by
        rw [List.find?_cons_of_neg _ (by simp [hm0])]
        exact List.find?_eq_none.mpr (fun m hm => by simp [h1 m hm])
      have h2' : 20 < (m0 :: rest).length := by
        rw [if_neg hhead] at h2
        simpa using h2
      have holder :
          0 < (((m0 :: rest).take ((m0 :: rest).length - 20)).drop 0).length := by
        simp only [List.length_drop, List.length_take]
        omega
      simp only [if_neg hhead]
      unfold compressHistory
      rw [hfind]
      simp only [Option.isSome_none, Bool.false_eq_true, if_false, if_pos holder]
      exact ⟨_, rfl, rfl, rfl, by simp [hm0]⟩

theorem c7_witness :
    (∀ m ∈ fxMsgs23.drop 1, m.role ≠ Role.system) ∧
    20 + (if fxMsgs23.head?.map (fun m => m.role) = some Role.system
      then 1 else 0) < fxMsgs23.length ∧
    ∃ ph : Message,
      compressHistory fxMsgs23 =
        (if fxMsgs23.head?.map (fun m => m.role) = some Role.system
          then fxMsgs23.take 1 else []) ++
          ph :: fxMsgs23.drop (fxMsgs23.length - 20) ∧
      ph.role = Role.assistant ∧
      ph.content = MessageContent.str
        ("[Previous conversation compressed: " ++
          toString ((fxMsgs23.take (fxMsgs23.length - 20)).drop
            (if fxMsgs23.head?.map (fun m => m.role) = some Role.system
              then 1 else 0)).length ++
          " messages removed to save context. Key topics discussed included: " ++
          extractTopics ((fxMsgs23.take (fxMsgs23.length - 20)).drop
            (if fxMsgs23.head?.map (fun m => m.role) = some Role.system
              then 1 else 0)) ++ "]") ∧
      ((compressHistory fxMsgs23).head?.map (fun m => m.role) = some Role.system ↔
        fxMsgs23.head?.map (fun m => m.role) = some Role.system) :=
  ⟨by decide, by decide, c7_compression fxMsgs23 (by decide) (by decide)⟩

theorem c3_witness :
    (hooksExecute [fxHookSkip, fxHookNote, fxHookBlock, fxHookTail] fxHookInput).1.any
      (fun o => o.block) = true ∧
    ∃ l₁ hb l₂ inv,
      [fxHookSkip, fxHookNote, fxHookBlock, fxHookTail] = l₁ ++ hb :: l₂ ∧
      (hooksExecute [fxHookSkip, fxHookNote, fxHookBlock, fxHookTail] fxHookInput).2 =
        inv ++ [hb] ∧ inv.Sublist l₁ :=
  ⟨rfl,
   (c3_hook_pipeline [fxHookSkip, fxHookNote, fxHookBlock, fxHookTail]
     fxHookInput).2.2.1 rfl⟩

theorem mem_insertDescBySim {x a : SearchResult} {l : List SearchResult} :
    a ∈ insertDescBySim x l ↔ a = x ∨ a ∈ l := by
  induction l with
  | nil => simp [insertDescBySim]
  | cons y ys ih =>
    simp only [insertDescBySim]
    by_cases h : y.similarity < x.similarity
    · rw [if_pos h]
      simp [or_comm, or_left_comm, or_assoc]
    · rw [if_neg h]
      simp only [List.mem_cons, ih]
      tauto

theorem mem_sortDescBySim {a : SearchResult} {l : List SearchResult} :
    a ∈ sortDescBySim l ↔ a ∈ l := by
  induction l with
  | nil => simp [sortDescBySim]
  | cons x xs ih =>
    show a ∈ insertDescBySim x (sortDescBySim xs) ↔ _
    rw [mem_insertDescBySim, ih]
    simp

theorem sorted_insertDescBySim (x : SearchResult) (l : List SearchResult)
    (h : l.Sorted (fun a b => b.similarity ≤ a.similarity)) :
    (insertDescBySim x l).Sorted (fun a b => b.similarity ≤ a.similarity) := by
  induction l with
  | nil => simp [insertDescBySim]
  | cons y ys ih =>
    rcases List.sorted_cons.mp h with ⟨hy, hys⟩
    simp only [insertDescBySim]
    by_cases hlt : y.similarity < x.similarity
    · rw [if_pos hlt]
      refine List.sorted_cons.mpr ⟨?_, h⟩
      intro b hb
      rcases List.mem_cons.mp hb with rfl | hbys
      · exact le_of_lt hlt
      · exact le_trans (hy b hbys) (le_of_lt hlt)
    · rw [if_neg hlt]
      refine List.sorted_cons.mpr ⟨?_, ih hys⟩
      intro b hb
      rcases mem_insertDescBySim.mp hb with rfl | hbys
      · exact le_of_not_lt hlt
      · exact hy b hbys

theorem sorted_sortDescBySim (l : List SearchResult) :
    (sortDescBySim l).Sorted (fun a b => b.similarity ≤ a.similarity) := by
  induction l with
  | nil => simp [sortDescBySim]
  | cons x xs ih => exact sorted_insertDescBySim x (sortDescBySim xs) ih

/-- Every vector-search candidate comes from a stored record with a
non-empty embedding and passed the similarity threshold. -/
theorem searchCandidates_spec (q : List ℝ) (mems : List Memory) (minSim : ℝ) :
    ∀ c ∈ searchCandidates q mems minSim,
      (∃ m ∈ mems, embNonEmptyB m = true ∧ c.toMemory = m) ∧
        minSim ≤ c.similarity := by
  intro c hc
  unfold searchCandidates at hc
  have hc2 := mem_sortDescBySim.mp (List.take_subset 50 _ hc)
  rcases List.mem_filter.mp hc2 with ⟨hc3, hdec⟩
  rcases List.mem_map.mp hc3 with ⟨m, hm, hsim⟩
  rcases List.mem_filter.mp hm with ⟨hmm, hemb⟩
  refine ⟨⟨m, hmm, hemb, ?_⟩, of_decide_eq_true hdec⟩
  rw [← hsim]
  rfl

/-- Claim C6: every search result is drawn from stored records with a
non-empty embedding; every candidate passed the minimum-similarity filter
(default 0.7) before reranking; the candidate list is sorted by
non-increasing similarity and holds at most 50 entries. -/
theorem c6_memory_search (q : List ℝ) (mems : List Memory) (limit : Nat)
    (minSim : ℝ) (rer : Option (List RerankEntry)) :
    (∀ r ∈ searchModel q mems limit minSim rer,
      ∃ m ∈ mems, embNonEmptyB m = true ∧ r.toMemory = m) ∧
    (∀ c ∈ searchCandidates q mems minSim, minSim ≤ c.similarity) ∧
    (searchCandidates q mems minSim).Sorted
      (fun a b => b.similarity ≤ a.similarity) ∧
    (searchCandidates q mems minSim).length ≤ 50 := by
  refine ⟨?_, fun c hc => (searchCandidates_spec q mems minSim c hc).2, ?_, ?_⟩
  · intro r hr
    unfold searchModel at hr
    split at hr
    · cases hr
    · split at hr
      · rcases List.mem_filterMap.mp hr with ⟨e, _, he⟩
        rcases ho : (searchCandidates q mems minSim).get? e.index with _ | c
        · rw [ho] at he
          cases he
        · rw [ho] at he
          simp only [Option.map_some', Option.some.injEq] at he
          have hcmem : c ∈ searchCandidates q mems minSim := List.get?_mem ho
          rcases (searchCandidates_spec q mems minSim c hcmem).1 with ⟨m, hm, hemb, hcm⟩
          refine ⟨m, hm, hemb, ?_⟩
          rw [← he]
          exact hcm
      · exact (searchCandidates_spec q mems minSim r (List.take_subset limit _ hr)).1
  · unfold searchCandidates
    exact List.Pairwise.sublist (List.take_sublist 50 _) (sorted_sortDescBySim _)
  · unfold searchCandidates
    exact List.length_take_le 50 _

theorem cosineSimilarity_unit : cosineSimilarity [(1 : ℝ)] [(1 : ℝ)] = 1 := by
  simp [cosineSimilarity, Real.sqrt_one]

theorem simOf_fxMemA : simOf [(1 : ℝ)] fxMemA = fxRes := by
  simp [simOf, fxRes, fxMemA, cosineSimilarity_unit]

theorem filter_fxRes :
    List.filter (fun r => decide ((0.7 : ℝ) ≤ r.similarity)) [fxRes] = [fxRes] := by
  rw [List.filter_cons, if_pos]
  · rfl
  · exact decide_eq_true (by show (0.7 : ℝ) ≤ 1; norm_num)

theorem searchCandidates_fxMemA :
    searchCandidates [(1 : ℝ)] [fxMemA] 0.7 = [fxRes] := by
  unfold searchCandidates
  rw [show List.filter embNonEmptyB [fxMemA] = [fxMemA] from rfl]
  rw [show [fxMemA].map (simOf [(1 : ℝ)]) = [simOf [(1 : ℝ)] fxMemA] from rfl]
  rw [simOf_fxMemA, filter_fxRes]
  rfl

theorem searchModel_fxMemA :
    searchModel [(1 : ℝ)] [fxMemA] 5 0.7 none = [fxRes] := by
  unfold searchModel
  rw [searchCandidates_fxMemA]
  rfl

theorem c6_witness :
    fxRes ∈ searchModel [(1 : ℝ)] [fxMemA] 5 0.7 none ∧
    (∃ m ∈ [fxMemA], embNonEmptyB m = true ∧ fxRes.toMemory = m) ∧
    fxRes ∈ searchCandidates [(1 : ℝ)] [fxMemA] 0.7 ∧
    (0.7 : ℝ) ≤ fxRes.similarity ∧
    (searchCandidates [(1 : ℝ)] [fxMemA] 0.7).Sorted
      (fun a b => b.similarity ≤ a.similarity) ∧
    (searchCandidates [(1 : ℝ)] [fxMemA] 0.7).length ≤ 50 := by
  have hmem : fxRes ∈ searchModel [(1 : ℝ)] [fxMemA] 5 0.7 none := by
    rw [searchModel_fxMemA]
    simp
  have hcmem : fxRes ∈ searchCandidates [(1 : ℝ)] [fxMemA] 0.7 := by
    rw [searchCandidates_fxMemA]
    simp
  exact ⟨hmem,
    (c6_memory_search [(1 : ℝ)] [fxMemA] 5 0.7 none).1 fxRes hmem,
    hcmem,
    (c6_memory_search [(1 : ℝ)] [fxMemA] 5 0.7 none).2.1 fxRes hcmem,
    (c6_memory_search [(1 : ℝ)] [fxMemA] 5 0.7 none).2.2.1,
    (c6_memory_search [(1 : ℝ)] [fxMemA] 5 0.7 none).2.2.2⟩

theorem countRole_append (r : Role) (l1 l2 : List Message) :
    countRole r (l1 ++ l2) = countRole r l1 + countRole r l2 := by
  simp [countRole, List.filter_append]
theorem countRole_cons (r : Role) (m : Message) (l : List Message) :
    countRole r (m :: l) = (if m.role = r then 1 else 0) + countRole r l := by
  by_cases hm : m.role = r
  · simp [countRole, List.filter_cons, hm, Nat.add_comm]
  · simp [countRole, List.filter_cons, hm]
theorem histCounts (cfg : AgentCfg) (u : String) (hist : List (Role × String)) :
    (initialAgentSt cfg u hist).iterations = 0 ∧
    (initialAgentSt cfg u hist).messages.length = hist.length + 2 ∧
    countRole Role.assistant (initialAgentSt cfg u hist).messages =
      countRole Role.assistant (hist.map (fun rc =>
        ({ role := rc.1, content := MessageContent.str rc.2 } : Message))) ∧
    countRole Role.tool (initialAgentSt cfg u hist).messages =
      countRole Role.tool (hist.map (fun rc =>
        ({ role := rc.1, content := MessageContent.str rc.2 } : Message))) := by
  refine ⟨rfl, ?_, ?_, ?_⟩
  · simp [initialAgentSt]
  · show countRole Role.assistant
      ({ role := Role.system, content := MessageContent.str cfg.systemPrompt } ::
        (hist.map _ ++ [{ role := Role.user, content := MessageContent.str u }])) = _
    rw [countRole_cons, countRole_append, countRole_cons]
    simp [countRole]
  · show countRole Role.tool
      ({ role := Role.system, content := MessageContent.str cfg.systemPrompt } ::
        (hist.map _ ++ [{ role := Role.user, content := MessageContent.str u }])) = _
    rw [countRole_cons, countRole_append, countRole_cons]
    simp [countRole]
theorem countRole_assistantMessage (m : Message) :
    countRole Role.assistant [assistantMessageOf m] = 1 ∧
    countRole Role.tool [assistantMessageOf m] = 0 := by
  constructor <;> rfl
theorem countRole_toolMsgs (records : List CallRecord) :
    countRole Role.tool (records.map (fun r =>
      ({ role := Role.tool, content := MessageContent.str r.result.content,
         tool_call_id := some r.result.tool_call_id } : Message))) = records.length ∧
    countRole Role.assistant (records.map (fun r =>
      ({ role := Role.tool, content := MessageContent.str r.result.content,
         tool_call_id := some r.result.tool_call_id } : Message))) = 0 := by
  induction records with
  | nil => exact ⟨rfl, rfl⟩
  | cons rec recs ih =>
    refine ⟨?_, ?_⟩ <;> simp [countRole, List.filter_cons] <;>
      simp [countRole] at ih <;> omega
theorem processToolCalls_length (cfg : AgentCfg) :
    ∀ (l : List ToolCall) (records : List CallRecord),
      processToolCalls cfg l = Except.ok records → records.length = l.length := by
  intro l
  induction l with
  | nil =>
    intro records h
    simp [processToolCalls] at h
    subst h
    rfl
  | cons tc tcs ih =>
    intro records h
    unfold processToolCalls at h
    split at h
    · cases h
    · split at h
      · cases h
      · rename_i r hr rs hrs
        simp only [Except.ok.injEq] at h
        subst h
        simp [ih rs hrs]
theorem agentIterate_spec (cfg : AgentCfg) :
    ∀ (fuel : Nat) (st res : AgentSt),
      agentIterate cfg fuel st = Except.ok res →
      st.iterations ≤ res.iterations ∧
      res.iterations ≤ st.iterations + fuel ∧
      (1 ≤ fuel → st.iterations + 1 ≤ res.iterations) ∧
      countRole Role.assistant res.messages =
        countRole Role.assistant st.messages + (res.iterations - st.iterations) ∧
      countRole Role.tool st.messages + (res.iterations - st.iterations) ≤
        countRole Role.tool res.messages + 1 ∧
      st.messages.length + 2 * (res.iterations - st.iterations) ≤
        res.messages.length + 1 := by
  intro fuel
  induction fuel with
  | zero =>
    intro st res h
    simp only [agentIterate, Except.ok.injEq] at h
    subst h
    exact ⟨le_refl _, by omega, by omega, by omega, by omega, by omega⟩
  | succ fuel ih =>
    intro st res h
    unfold agentIterate at h
    split at h
    · cases h
    · rename_i reply hreply
      have hA : (applyReply st reply).iterations = st.iterations + 1 := rfl
      have hAm : (applyReply st reply).messages =
          st.messages ++ [assistantMessageOf reply.message] := rfl
      have hcntA : countRole Role.assistant (applyReply st reply).messages =
          countRole Role.assistant st.messages + 1 := by
        rw [hAm, countRole_append, (countRole_assistantMessage reply.message).1]
      have hcntT : countRole Role.tool (applyReply st reply).messages =
          countRole Role.tool st.messages := by
        rw [hAm, countRole_append, (countRole_assistantMessage reply.message).2]
        omega
      have hlenA : (applyReply st reply).messages.length =
          st.messages.length + 1 := by
        rw [hAm]
        simp
      split at h
      · simp only [Except.ok.injEq] at h
        subst h
        exact ⟨by omega, by omega, by omega, by omega, by omega, by omega⟩
      · simp only [Except.ok.injEq] at h
        subst h
        exact ⟨by omega, by omega, by omega, by omega, by omega, by omega⟩
      · rename_i tc tcs htc
        split at h
        · cases h
        · rename_i records hrec
          have hih := ih _ _ h
          have hreclen := processToolCalls_length cfg (tc :: tcs) records hrec
          have h3it : (afterToolCalls (applyReply st reply) (tc :: tcs) records).iterations =
              st.iterations + 1 := rfl
          have h3m : (afterToolCalls (applyReply st reply) (tc :: tcs) records).messages =
              (applyReply st reply).messages ++ records.map (fun r =>
                ({ role := Role.tool, content := MessageContent.str r.result.content,
                   tool_call_id := some r.result.tool_call_id } : Message)) := rfl
          have h3cA : countRole Role.assistant
              (afterToolCalls (applyReply st reply) (tc :: tcs) records).messages =
              countRole Role.assistant st.messages + 1 := by
            rw [h3m, countRole_append, (countRole_toolMsgs records).2, hcntA]
          have h3cT : countRole Role.tool
              (afterToolCalls (applyReply st reply) (tc :: tcs) records).messages =
              countRole Role.tool st.messages + records.length := by
            rw [h3m, countRole_append, (countRole_toolMsgs records).1, hcntT]
          have h3len : (afterToolCalls (applyReply st reply) (tc :: tcs) records).messages.length =
              st.messages.length + 1 + records.length := by
            rw [h3m]
            simp [hlenA]
          have hlge : 1 ≤ records.length := by
            rw [hreclen]
            simp
          obtain ⟨i1, i2, i3, i4, i5, i6⟩ := hih
          rw [h3it] at i1 i2 i4 i5 i6
          rw [h3cA] at i4
          rw [h3cT] at i5
          rw [h3len] at i6
          exact ⟨by omega, by omega, by omega, by omega, by omega, by omega⟩
/-- Claim C8: a completed agent turn never exceeds max_iterations; with at
least one allowed iteration the transcript grows by at least two messages
over the seeded system prompt plus history (the user message and at least
one assistant message); each iteration appends exactly one assistant
message, and each intermediate iteration appends at least one tool message;
the returned iteration count equals the number of completed iterations even
when max_iterations is exhausted. -/
theorem c8_agent_loop (cfg : AgentCfg) (userMessage : String)
    (history : List (Role × String)) (res : AgentSt)
    (hrun : agentRun cfg userMessage history = Except.ok res)
    (hmax : 1 ≤ cfg.maxIterations) :
    res.iterations ≤ cfg.maxIterations ∧
    1 ≤ res.iterations ∧
    (history.length + 1) + 2 ≤ res.messages.length ∧
    countRole Role.assistant res.messages =
      countRole Role.assistant (history.map (fun rc =>
        ({ role := rc.1, content := MessageContent.str rc.2 } : Message))) +
        res.iterations ∧
    countRole Role.tool (history.map (fun rc =>
        ({ role := rc.1, content := MessageContent.str rc.2 } : Message))) +
      res.iterations ≤ countRole Role.tool res.messages + 1 ∧
    (history.length + 2) + 2 * res.iterations ≤ res.messages.length + 1 := by
  unfold agentRun at hrun
  obtain ⟨i1, i2, i3, i4, i5, i6⟩ := agentIterate_spec cfg cfg.maxIterations _ res hrun
  obtain ⟨e1, e2, e3, e4⟩ := histCounts cfg userMessage history
  rw [e1] at i2 i3 i4 i5 i6
  rw [e3] at i4
  rw [e4] at i5
  rw [e2] at i6
  exact ⟨by omega, by omega, by omega, by omega, by omega, by omega⟩

theorem c8_witness :
    agentRun fxCfgSimple "hi" [] = Except.ok fxRunRes ∧
    1 ≤ fxCfgSimple.maxIterations ∧
    (fxRunRes.iterations ≤ fxCfgSimple.maxIterations ∧
      1 ≤ fxRunRes.iterations ∧
      (([] : List (Role × String)).length + 1) + 2 ≤ fxRunRes.messages.length ∧
      countRole Role.assistant fxRunRes.messages =
        countRole Role.assistant (([] : List (Role × String)).map (fun rc =>
          ({ role := rc.1, content := MessageContent.str rc.2 } : Message))) +
          fxRunRes.iterations ∧
      countRole Role.tool (([] : List (Role × String)).map (fun rc =>
          ({ role := rc.1, content := MessageContent.str rc.2 } : Message))) +
        fxRunRes.iterations ≤ countRole Role.tool fxRunRes.messages + 1 ∧
      (([] : List (Role × String)).length + 2) + 2 * fxRunRes.iterations ≤
        fxRunRes.messages.length + 1) :=
  ⟨rfl, by decide,
   c8_agent_loop fxCfgSimple "hi" [] fxRunRes rfl (by decide)⟩

end Bluehawks
